import Mathlib

/-!
# lotus-exporter: the refresh cycle of `main.go`

A shallow embedding of `src/main.go`: the conversions `ConvertPower` and
`ConvertBalance`, the win-rate derivation and the query sequence of
`GetMinerInfo`, the body of the scheduler loop of `main`, and the two read
paths (`handler` for `/json`, the registry behind `/metrics`).

* `float64` is modelled exactly: a finite value carries its rational value,
  every arithmetic result is rounded to the nearest binary64 value with ties
  to even, magnitudes that round to `2^1024` or more become an infinity.
* `big.Int` is `ℤ`; `big.Int.Int64` keeps the low 64 bits.
* The remote node is a record of query functions; `GetMinerInfo` returns the
  list of queries it issued next to its result.
-/

set_option linter.dupNamespace false

namespace LotusExporter

/-! ## binary64 -/

/-- A `float64`. `fin q` is the finite value `q` (with `fin 0` the positive
zero), `nzero` the negative zero. -/
inductive F64 where
  | fin (q : ℚ)
  | nzero
  | pinf
  | ninf
  | nan
  deriving DecidableEq, Repr

/-- Nearest integer, ties to the even one. -/
def roundHalfEven (x : ℚ) : ℤ :=
  if x - ⌊x⌋ < 1 / 2 then ⌊x⌋
  else if 1 / 2 < x - ⌊x⌋ then ⌊x⌋ + 1
  else if ⌊x⌋ % 2 = 0 then ⌊x⌋ else ⌊x⌋ + 1

/-- Binary exponent of the binade of `q`: `⌊log₂ |q|⌋`, not below the
exponent `-1022` of the subnormal range. -/
def binade (q : ℚ) : ℤ := max (Int.log 2 |q|) (-1022)

/-- Spacing of the binary64 values in the binade of `q` (53-bit significand). -/
def ulp (q : ℚ) : ℚ := (2 : ℚ) ^ (binade q - 52)

/-- The multiple of `ulp q` nearest to `q`, ties to the even multiple. -/
def roundToGrid (q : ℚ) : ℚ := roundHalfEven (q / ulp q) * ulp q

/-- The least magnitude that no finite `float64` reaches: `2^1024`. -/
@[irreducible] def F64.overflow : ℚ := 2 ^ 1024

/-- Rounding of an exact value to `float64` (round to nearest, ties to even;
overflow to an infinity; the sign survives underflow to zero). This is
`big.Rat.Float64`, the conversion `float64(n)` of an integer, and the rounding
step of every `float64` operation. -/
def F64.ofRat (q : ℚ) : F64 :=
  if F64.overflow ≤ roundToGrid q then .pinf
  else if roundToGrid q ≤ -F64.overflow then .ninf
  else if roundToGrid q = 0 ∧ q < 0 then .nzero
  else .fin (roundToGrid q)

/-- The conversion `float64(n)` of an integer. -/
def F64.ofInt (n : ℤ) : F64 := F64.ofRat n

/-- Sign bit. -/
def F64.signBit : F64 → Bool
  | .fin q => decide (q < 0)
  | .nzero => true
  | .pinf => false
  | .ninf => true
  | .nan => false

/-- Either zero. -/
def F64.isZero : F64 → Bool
  | .fin q => decide (q = 0)
  | .nzero => true
  | _ => false

/-- Either infinity. -/
def F64.isInf : F64 → Bool
  | .pinf => true
  | .ninf => true
  | _ => false

/-- The zero of the given sign. -/
def F64.zero (neg : Bool) : F64 := if neg then .nzero else .fin 0

/-- The infinity of the given sign. -/
def F64.infinity (neg : Bool) : F64 := if neg then .ninf else .pinf

/-- The `float64` quotient `a / b`. -/
def F64.div (a b : F64) : F64 :=
  match a, b with
  | .nan, _ => .nan
  | _, .nan => .nan
  | .fin x, .fin y =>
    if y = 0 then (if x = 0 then .nan else F64.infinity (decide (x < 0)))
    else if x = 0 then F64.zero (decide (y < 0))
    else F64.ofRat (x / y)
  | a, b =>
    if a.isInf then (if b.isInf then .nan else F64.infinity (xor a.signBit b.signBit))
    else if b.isInf then F64.zero (xor a.signBit b.signBit)
    else if b.isZero then (if a.isZero then .nan else F64.infinity (xor a.signBit b.signBit))
    else F64.zero (xor a.signBit b.signBit)

/-- The comparison `x > c` of a `float64` with a finite constant. -/
def F64.gt (x : F64) (c : ℚ) : Bool :=
  match x with
  | .fin q => decide (c < q)
  | .nzero => decide (c < 0)
  | .pinf => true
  | .ninf => false
  | .nan => false

/-- A value that is not above zero: a finite value at most 0, a zero, or `-Inf`. -/
def F64.NonPos : F64 → Prop
  | .fin q => q ≤ 0
  | .nzero => True
  | .ninf => True
  | _ => False

/-- Truncation toward zero. -/
def truncRat (q : ℚ) : ℤ := if 0 ≤ q then ⌊q⌋ else ⌈q⌉

/-- The conversion `int64(x)` of a `float64` (here `time.Duration(x)`):
truncation toward zero. For a value outside the `int64` range Go leaves the
result to the implementation; the value taken is that of amd64. -/
def F64.toInt64 : F64 → ℤ
  | .fin q => if -2 ^ 63 ≤ truncRat q ∧ truncRat q < 2 ^ 63 then truncRat q else -2 ^ 63
  | .nzero => 0
  | _ => -2 ^ 63

/-! ## big integers and machine integers -/

/-- Two's complement reading of the low 64 bits. -/
def wrapInt64 (x : ℤ) : ℤ := (x + 2 ^ 63) % 2 ^ 64 - 2 ^ 63

/-- The method `big.Int.Int64`: the low 64 bits of the magnitude as an
`int64`, negated for a negative number. -/
def Int64 (x : ℤ) : ℤ :=
  if x < 0 then wrapInt64 (-wrapInt64 ((x.natAbs : ℤ) % 2 ^ 64))
  else wrapInt64 ((x.natAbs : ℤ) % 2 ^ 64)

/-- Function `types.BigMul`. -/
def BigMul (a b : ℤ) : ℤ := a * b

/-- Function `types.BigAdd`. -/
def BigAdd (a b : ℤ) : ℤ := a + b

/-- Function `types.BigDiv`, that is `big.Int.Div`: Euclidean division, which
panics on a zero divisor (`none`). -/
def BigDiv (a b : ℤ) : Option ℤ := if b = 0 then none else some (a / b)

/-! ## constants of the lotus `build` package and of `time` -/

/-- Modelled from the spec: the constant `build.BlocksPerEpoch` is declared in
the lotus `build` package, outside this repository; 5 is the value the win-rate
scenario names. -/
def BlocksPerEpoch : ℤ := 5

/-- Modelled from the spec: the variable `build.BlockDelaySecs` is declared in
the lotus `build` package, outside this repository; 30 is the block delay the
win-rate bound names. -/
def BlockDelaySecs : ℤ := 30

/-- Modelled from the spec: the constant `build.FilecoinPrecision`, the
"known precision constant" of the balance scaling, is declared in the lotus
`build` package, outside this repository; its value is `10^18`. -/
def FilecoinPrecision : ℤ := 1000000000000000000

/-- Constant `time.Second`, in nanoseconds. -/
def Second : ℤ := 1000000000

/-- Constant `time.Hour`, in nanoseconds. -/
def Hour : ℤ := 3600 * Second

/-! ## conversions (`main.go`, lines 323-336) -/

/-- Function `ConvertPower`: `new(big.Rat).SetInt(p.Int).Float64()`. -/
def ConvertPower (p : ℤ) : F64 := F64.ofRat p

/-- Function `ConvertBalance`: the rational `bi / FilecoinPrecision`, returned
as the literal `0` when its sign is zero and through `Float64` otherwise. -/
def ConvertBalance (bi : ℤ) : F64 :=
  if ((bi : ℚ) / (FilecoinPrecision : ℚ)) = 0 then .fin 0
  else F64.ofRat ((bi : ℚ) / (FilecoinPrecision : ℚ))

/-! ## the remote node -/

/-- Type `address.Address`. -/
abbrev Address := String

/-- Type `cid.Cid`. -/
abbrev Cid := String

/-- Type `types.TipSetKey`: the chain reference point, a list of block CIDs. -/
abbrev TipSetKey := List Cid

/-- Value `types.EmptyTSK`, which a node reads as its current head. -/
def EmptyTSK : TipSetKey := []

/-- Type `types.Actor`. -/
structure types.Actor where
  Code : Cid
  Head : Cid
  Nonce : ℕ
  Balance : ℤ
  deriving DecidableEq, Repr

/-- Type `power.Claim`. -/
structure power.Claim where
  RawBytePower : ℤ
  QualityAdjPower : ℤ
  deriving DecidableEq, Repr

/-- Type `api.MinerPower`, the answer of `StateMinerPower`. -/
structure api.MinerPower where
  MinerPower : power.Claim
  TotalPower : power.Claim
  HasMinPower : Bool
  deriving DecidableEq, Repr

/-- Type `api.MinerSectors`, the answer of `StateMinerSectorCount` (three `uint64`). -/
structure api.MinerSectors where
  Live : ℕ
  Active : ℕ
  Faulty : ℕ
  deriving DecidableEq, Repr

/-- Type `miner.MinerInfo`, the answer of `StateMinerInfo`; the fields the exporter reads. -/
structure miner.MinerInfo where
  Worker : Address
  ControlAddresses : List Address
  SectorSize : ℕ
  deriving DecidableEq, Repr

/-- Type `miner.LockedFunds`. -/
structure miner.LockedFunds where
  VestingFunds : ℤ
  InitialPledgeRequirement : ℤ
  PreCommitDeposits : ℤ
  deriving DecidableEq, Repr

/-- Type `miner.State`: the actor state that `miner.Load` reads through the
node's block store. -/
structure miner.State where
  handle : ℕ
  deriving DecidableEq, Repr

/-- The node behind `daemonAPI` and the block store built on it, during one
refresh cycle: one function per query, each of which may fail with a message.
The signatures are the ones of the call sites; `WalletBalance` takes an address
and no tipset key. -/
structure Daemon where
  StateGetActor : Address → TipSetKey → Except String types.Actor
  Load : types.Actor → Except String miner.State
  StateMinerInfo : Address → TipSetKey → Except String miner.MinerInfo
  StateMinerPower : Address → TipSetKey → Except String api.MinerPower
  StateMinerSectorCount : Address → TipSetKey → Except String api.MinerSectors
  LockedFunds : miner.State → Except String miner.LockedFunds
  AvailableBalance : miner.State → ℤ → Except String ℤ
  WalletBalance : Address → Except String ℤ

/-- A query of `GetMinerInfo`, with its arguments. -/
inductive Query where
  | StateGetActor (a : Address) (tsk : TipSetKey)
  | Load (act : types.Actor)
  | StateMinerInfo (a : Address) (tsk : TipSetKey)
  | StateMinerPower (a : Address) (tsk : TipSetKey)
  | StateMinerSectorCount (a : Address) (tsk : TipSetKey)
  | LockedFunds (st : miner.State)
  | AvailableBalance (st : miner.State) (bal : ℤ)
  | WalletBalance (a : Address)
  deriving DecidableEq, Repr

/-- The tipset key a query carries, if it carries one. -/
def Query.tipSetKey : Query → Option TipSetKey
  | .StateGetActor _ tsk => some tsk
  | .StateMinerInfo _ tsk => some tsk
  | .StateMinerPower _ tsk => some tsk
  | .StateMinerSectorCount _ tsk => some tsk
  | _ => none

/-- Whether a query is a `WalletBalance` query. -/
def Query.isWalletBalance : Query → Bool
  | .WalletBalance _ => true
  | _ => false

/-- An issued query and whether it succeeded. -/
structure Call where
  query : Query
  ok : Bool
  deriving DecidableEq, Repr

/-- How a computation ends other than with a value: an `error` return, or a
run-time panic. -/
inductive Failure where
  | err (msg : String)
  | panic (msg : String)
  deriving DecidableEq, Repr

/-- A computation that issues queries: the calls made, in order, and the outcome. -/
structure Run (α : Type) where
  trace : List Call
  result : Except Failure α

/-- A computation that issues no query. -/
def Run.pure {α : Type} (a : α) : Run α := ⟨[], .ok a⟩

/-- Sequencing: the second part runs only if the first one ended with a value. -/
def Run.bind {α β : Type} (x : Run α) (f : α → Run β) : Run β :=
  match x.result with
  | .error e => ⟨x.trace, .error e⟩
  | .ok a => ⟨x.trace ++ (f a).trace, (f a).result⟩

instance : Monad Run where
  pure := Run.pure
  bind := Run.bind

/-- One query: `v, err := q(...); if err != nil return`. -/
def call {α : Type} (q : Query) (r : Except String α) : Run α :=
  match r with
  | .ok a => ⟨[⟨q, true⟩], .ok a⟩
  | .error e => ⟨[⟨q, false⟩], .error (.err e)⟩

/-- A step that may panic. -/
def orPanic {α : Type} (msg : String) (o : Option α) : Run α :=
  match o with
  | some a => ⟨[], .ok a⟩
  | none => ⟨[], .error (.panic msg)⟩

/-! ## `GetMinerInfo` (`main.go`, lines 99-120 and 230-321) -/

/-- Type `MinerInfo` of `main.go`. -/
structure MinerInfo where
  MinerID : String
  TotalRawBytePower : F64
  TotalQualityPower : F64
  MinerRawBytePower : F64
  MinerQualityPower : F64
  WinPerDay : F64
  SectorsCommitted : F64
  SectorsActive : F64
  SectorsFaulty : F64
  WorkerBalance : F64
  ControlBalance : F64
  MinerBalance : F64
  AvailableBalance : F64
  PledgedBalance : F64
  PreCommitBalance : F64
  VestingBalance : F64
  deriving DecidableEq, Repr

/-- The zero value of `MinerInfo`, with which the named result `info` starts. -/
def MinerInfo.zero : MinerInfo :=
  ⟨"", .fin 0, .fin 0, .fin 0, .fin 0, .fin 0, .fin 0, .fin 0, .fin 0, .fin 0, .fin 0,
    .fin 0, .fin 0, .fin 0, .fin 0, .fin 0⟩

/-- Lines 269-281 of `GetMinerInfo`: the value of `info.WinPerDay`, or `none`
when `types.BigDiv` panics. -/
def winPerDay (pow : api.MinerPower) : Option F64 :=
  if !pow.HasMinPower then some (.fin 0)
  else
    match BigDiv (BigMul pow.MinerPower.QualityAdjPower 1000000) pow.TotalPower.QualityAdjPower with
    | none => none
    | some qpercI =>
      let expWinChance := F64.div (F64.ofInt (Int64 (BigMul qpercI BlocksPerEpoch))) (.fin 1000000)
      if expWinChance.gt 0 then
        let winRate := F64.toInt64
          (F64.div (F64.ofInt (wrapInt64 (Second * wrapInt64 BlockDelaySecs)))
            (if expWinChance.gt 1 then .fin 1 else expWinChance))
        some (F64.div (F64.ofInt (wrapInt64 (Hour * 24))) (F64.ofInt winRate))
      else some (.fin 0)

/-- Lines 308-314 of `GetMinerInfo`: the loop over the control addresses,
started with the running sum `cbsum`. -/
def sumControlBalances (d : Daemon) : List Address → ℤ → Run ℤ
  | [], cbsum => Run.pure cbsum
  | ca :: rest, cbsum =>
    Run.bind (call (.WalletBalance ca) (d.WalletBalance ca))
      (fun b => sumControlBalances d rest (BigAdd cbsum b))

/-- Function `GetMinerInfo`, for the node `d` and the package variables
`minerAddr` and `minerID`. -/
def GetMinerInfo (d : Daemon) (minerAddr : Address) (minerID : String) (tpKey : TipSetKey) :
    Run MinerInfo := do
  let mact ← call (.StateGetActor minerAddr tpKey) (d.StateGetActor minerAddr tpKey)
  let mas ← call (.Load mact) (d.Load mact)
  let mi ← call (.StateMinerInfo minerAddr tpKey) (d.StateMinerInfo minerAddr tpKey)
  let pow ← call (.StateMinerPower minerAddr tpKey) (d.StateMinerPower minerAddr tpKey)
  let secCounts ← call (.StateMinerSectorCount minerAddr tpKey)
    (d.StateMinerSectorCount minerAddr tpKey)
  let win ← orPanic "division by zero" (winPerDay pow)
  let lockedFunds ← call (.LockedFunds mas) (d.LockedFunds mas)
  let availBalance ← call (.AvailableBalance mas mact.Balance) (d.AvailableBalance mas mact.Balance)
  let wb ← call (.WalletBalance mi.Worker) (d.WalletBalance mi.Worker)
  let cb ← (if mi.ControlAddresses.length > 0 then do
      let cbsum ← sumControlBalances d mi.ControlAddresses 0
      pure (ConvertBalance cbsum)
    else pure (.fin 0))
  pure
    { MinerID := minerID
      TotalRawBytePower := ConvertPower pow.TotalPower.RawBytePower
      TotalQualityPower := ConvertPower pow.TotalPower.QualityAdjPower
      MinerRawBytePower := ConvertPower pow.MinerPower.RawBytePower
      MinerQualityPower := ConvertPower pow.MinerPower.QualityAdjPower
      WinPerDay := win
      SectorsCommitted := F64.ofInt secCounts.Live
      SectorsActive := F64.ofInt secCounts.Active
      SectorsFaulty := F64.ofInt secCounts.Faulty
      WorkerBalance := ConvertBalance wb
      ControlBalance := cb
      MinerBalance := ConvertBalance mact.Balance
      AvailableBalance := ConvertBalance availBalance
      PledgedBalance := ConvertPower lockedFunds.InitialPledgeRequirement
      PreCommitBalance := ConvertBalance lockedFunds.PreCommitDeposits
      VestingBalance := ConvertBalance lockedFunds.VestingFunds }

/-! ## the store, the scheduler loop and the two read paths -/

/-- The state the scheduler writes and the endpoints read: the fifteen
registered gauges (lines 37-96), each holding a `float64`, and `infoJson`. -/
structure Store where
  totalRawBytePower : F64
  totalQualityPower : F64
  minerRawBytePower : F64
  minerQualityPower : F64
  expectWinPerDay : F64
  sectorsCommitted : F64
  sectorsActive : F64
  sectorsFaulty : F64
  workerBalance : F64
  minerBalance : F64
  controlBalance : F64
  availableBalance : F64
  pledgedBalance : F64
  preCommitBalance : F64
  vestingBalance : F64
  infoJson : List UInt8
  deriving DecidableEq, Repr

/-- The store at process start: `prometheus.NewGauge` makes a gauge whose value
is 0, and `infoJson` is the nil slice. -/
def Store.init : Store :=
  ⟨.fin 0, .fin 0, .fin 0, .fin 0, .fin 0, .fin 0, .fin 0, .fin 0, .fin 0, .fin 0,
    .fin 0, .fin 0, .fin 0, .fin 0, .fin 0, []⟩

/-- Lines 196-210: the fifteen `Set` calls. -/
def Store.setGauges (s : Store) (info : MinerInfo) : Store :=
  { s with
    totalRawBytePower := info.TotalRawBytePower
    totalQualityPower := info.TotalQualityPower
    minerRawBytePower := info.MinerRawBytePower
    minerQualityPower := info.MinerQualityPower
    expectWinPerDay := info.WinPerDay
    sectorsCommitted := info.SectorsCommitted
    sectorsActive := info.SectorsActive
    sectorsFaulty := info.SectorsFaulty
    minerBalance := info.MinerBalance
    workerBalance := info.WorkerBalance
    controlBalance := info.ControlBalance
    availableBalance := info.AvailableBalance
    pledgedBalance := info.PledgedBalance
    preCommitBalance := info.PreCommitBalance
    vestingBalance := info.VestingBalance }

/-- The body of the scheduler loop (lines 191-217) for one tick, with
`jsonMarshal` standing for `json.Marshal` on a `MinerInfo`. `none`: the
goroutine panicked, which ends the process. A failed `json.Marshal` returns the
nil slice, which the assignment of line 212 stores. -/
def loopBody (jsonMarshal : MinerInfo → Except String (List UInt8)) (d : Daemon)
    (minerAddr : Address) (minerID : String) (tpKey : TipSetKey) (s : Store) : Option Store :=
  match (GetMinerInfo d minerAddr minerID tpKey).result with
  | .error (.err _) => some s
  | .error (.panic _) => none
  | .ok info =>
    match jsonMarshal info with
    | .error _ => some { s.setGauges info with infoJson := [] }
    | .ok bytes => some { s.setGauges info with infoJson := bytes }

/-- The scheduler loop over successive ticks; the node of each tick is given. -/
def runCycles (jsonMarshal : MinerInfo → Except String (List UInt8))
    (minerAddr : Address) (minerID : String) (tpKey : TipSetKey) :
    List Daemon → Store → Option Store
  | [], s => some s
  | d :: ds, s =>
    match loopBody jsonMarshal d minerAddr minerID tpKey s with
    | none => none
    | some s' => runCycles jsonMarshal minerAddr minerID tpKey ds s'

/-- What an endpoint writes: status code, content type, body. -/
structure Response where
  status : ℕ
  contentType : String
  body : List UInt8
  deriving DecidableEq, Repr

/-- Function `handler` (lines 138-142), the `/json` endpoint. -/
def handler (s : Store) : Response := ⟨200, "application/json", s.infoJson⟩

/-- The samples the `/metrics` endpoint exposes: one per gauge registered in
`init` (lines 130-135), with the gauge's current value. -/
def metrics (s : Store) : List (String × F64) :=
  [ ("total_raw_byte_power", s.totalRawBytePower),
    ("total_quality_power", s.totalQualityPower),
    ("miner_raw_byte_power", s.minerRawBytePower),
    ("miner_quality_power", s.minerQualityPower),
    ("expect_win_per_day", s.expectWinPerDay),
    ("sectors_committed", s.sectorsCommitted),
    ("sectors_faulty", s.sectorsFaulty),
    ("sectors_active", s.sectorsActive),
    ("worker_balance", s.workerBalance),
    ("miner_balance", s.minerBalance),
    ("control_balance", s.controlBalance),
    ("available_balance", s.availableBalance),
    ("pledged_balance", s.pledgedBalance),
    ("vesting_balance", s.vestingBalance),
    ("precommit_balance", s.preCommitBalance) ]

/-! ## cycles in which every query succeeds -/

/-- The answers of the node in a cycle in which every query succeeds;
`balance` gives the wallet balance of each control address. -/
structure Answers where
  mact : types.Actor
  mas : miner.State
  mi : miner.MinerInfo
  pow : api.MinerPower
  secCounts : api.MinerSectors
  lockedFunds : miner.LockedFunds
  availBalance : ℤ
  wb : ℤ
  balance : Address → ℤ

/-- Every query that `GetMinerInfo` makes of the node `d` for `minerAddr` at
`tpKey` succeeds, with the answers `ans`. -/
def Daemon.answers (d : Daemon) (minerAddr : Address) (tpKey : TipSetKey) (ans : Answers) : Prop :=
  d.StateGetActor minerAddr tpKey = .ok ans.mact ∧
  d.Load ans.mact = .ok ans.mas ∧
  d.StateMinerInfo minerAddr tpKey = .ok ans.mi ∧
  d.StateMinerPower minerAddr tpKey = .ok ans.pow ∧
  d.StateMinerSectorCount minerAddr tpKey = .ok ans.secCounts ∧
  d.LockedFunds ans.mas = .ok ans.lockedFunds ∧
  d.AvailableBalance ans.mas ans.mact.Balance = .ok ans.availBalance ∧
  d.WalletBalance ans.mi.Worker = .ok ans.wb ∧
  ∀ ca ∈ ans.mi.ControlAddresses, d.WalletBalance ca = .ok (ans.balance ca)

/-- A computation reports an `error` exactly when one of its queries failed. -/
def Run.Aborts {α : Type} (x : Run α) : Prop :=
  (∃ c ∈ x.trace, c.ok = false) ↔ ∃ e, x.result = .error (.err e)

/-! ## sample nodes -/

/-- Sample answers: an eligible account with power 10 on a network of power
1000, one control address. -/
def sampleAnswers : Answers where
  mact := ⟨"bafkminer", "bafyhead", 0, 5000000000000000000⟩
  mas := ⟨1⟩
  mi := ⟨"f3worker", ["f3control"], 34359738368⟩
  pow := ⟨⟨10, 10⟩, ⟨1000, 1000⟩, true⟩
  secCounts := ⟨3, 2, 1⟩
  lockedFunds := ⟨2000000000000000000, 1000000000000000000, 0⟩
  availBalance := 2000000000000000000
  wb := 7000000000000000000
  balance := fun _ => 3000000000000000000

/-- The node that answers every query with the given answers. -/
def Daemon.ofAnswers (ans : Answers) : Daemon where
  StateGetActor := fun _ _ => .ok ans.mact
  Load := fun _ => .ok ans.mas
  StateMinerInfo := fun _ _ => .ok ans.mi
  StateMinerPower := fun _ _ => .ok ans.pow
  StateMinerSectorCount := fun _ _ => .ok ans.secCounts
  LockedFunds := fun _ => .ok ans.lockedFunds
  AvailableBalance := fun _ _ => .ok ans.availBalance
  WalletBalance := fun a => if a = ans.mi.Worker then .ok ans.wb else .ok (ans.balance a)

/-- A node that cannot be reached: every query fails. -/
def Daemon.unreachable : Daemon where
  StateGetActor := fun _ _ => .error "connection refused"
  Load := fun _ => .error "connection refused"
  StateMinerInfo := fun _ _ => .error "connection refused"
  StateMinerPower := fun _ _ => .error "connection refused"
  StateMinerSectorCount := fun _ _ => .error "connection refused"
  LockedFunds := fun _ => .error "connection refused"
  AvailableBalance := fun _ _ => .error "connection refused"
  WalletBalance := fun _ => .error "connection refused"

/-- A store that an earlier cycle has filled. -/
def sampleStore : Store :=
  ⟨.fin 1000, .fin 1000, .fin 10, .fin 10, .fin 144, .fin 3, .fin 2, .fin 1, .fin 7, .fin 5,
    .fin 3, .fin 2, .fin 1, .fin 0, .fin 2, [123, 125]⟩

/-- Sample answers of an account below the eligibility threshold on a network
whose total power is zero. -/
def idleAnswers : Answers :=
  { sampleAnswers with pow := ⟨⟨10, 10⟩, ⟨0, 0⟩, false⟩ }

/-- Sample answers with the eligibility flag set on a network whose total
quality-adjusted power is zero. -/
def zeroTotalAnswers : Answers :=
  { sampleAnswers with pow := ⟨⟨1, 1⟩, ⟨0, 0⟩, true⟩ }

/-- No query of the computation carries a tipset key other than `k`. -/
def Run.KeyedBy {α : Type} (k : TipSetKey) (x : Run α) : Prop :=
  ∀ c ∈ x.trace, ∀ k', c.query.tipSetKey = some k' → k' = k

/-- A node whose ledger differs between the tipset `["bafyold"]` and its head:
the miner actor holds 1 FIL at the old tipset and 5 FIL now. Its
`WalletBalance` has no tipset to look at and reports 7 FIL for every address. -/
def forkedDaemon : Daemon :=
  { Daemon.ofAnswers sampleAnswers with
    StateGetActor := fun _ tsk =>
      if tsk = ["bafyold"] then .ok ⟨"bafkminer", "bafyoldhead", 0, 1000000000000000000⟩
      else .ok ⟨"bafkminer", "bafyhead", 0, 5000000000000000000⟩
    WalletBalance := fun _ => .ok 7000000000000000000 }

/-- The answers of `forkedDaemon` at the tipset `["bafyold"]`. -/
def forkedOldAnswers : Answers :=
  { sampleAnswers with
    mact := ⟨"bafkminer", "bafyoldhead", 0, 1000000000000000000⟩
    balance := fun _ => 7000000000000000000 }

/-- The answers of `forkedDaemon` at its head. -/
def forkedHeadAnswers : Answers :=
  { sampleAnswers with balance := fun _ => 7000000000000000000 }

/-- Sample answers of an account that declares no control address. -/
def soloAnswers : Answers :=
  { sampleAnswers with mi := ⟨"f3worker", [], 34359738368⟩ }

/-- The least magnitude whose rounding is an infinity: `2^1024 - 2^970`, half a
spacing below `2^1024`. -/
@[irreducible] def F64.roundsToInf : ℚ := 2 ^ 1024 - 2 ^ 970

/-- The win rate as the specification words it, over the rationals, for the
account power `m` and the network power `t`: with
`e = BlocksPerEpoch * floor(1000000 * m / t) / 1000000`, the rate
`(24 hours in ns) / trunc((BlockDelaySecs seconds in ns) / min(e, 1))`. -/
def specWinPerDay (m t : ℤ) : ℚ :=
  ((24 * Hour : ℤ) : ℚ) /
    (truncRat (((BlockDelaySecs * Second : ℤ) : ℚ) /
      min ((BlocksPerEpoch : ℚ) * (⌊((1000000 * m : ℤ) : ℚ) / (t : ℚ)⌋ : ℚ) / 1000000) 1) : ℚ)

/-- Sample answers of an eligible account whose power is 1844674407371 times
the network total. -/
def oversizedAnswers : Answers :=
  { sampleAnswers with pow := ⟨⟨1844674407371, 1844674407371⟩, ⟨1, 1⟩, true⟩ }

/-! ## rounding to the nearest integer -/

theorem roundHalfEven_intCast (n : ℤ) : roundHalfEven (n : ℚ) = n := by
  simp [roundHalfEven]

theorem floor_le_roundHalfEven (x : ℚ) : ⌊x⌋ ≤ roundHalfEven x := by
  unfold roundHalfEven
  split_ifs <;> omega

theorem roundHalfEven_le_floor_add_one (x : ℚ) : roundHalfEven x ≤ ⌊x⌋ + 1 := by
  unfold roundHalfEven
  split_ifs <;> omega

theorem abs_roundHalfEven_sub_le (x : ℚ) : |(roundHalfEven x : ℚ) - x| ≤ 1 / 2 := by
  have h1 := Int.floor_le x
  have h2 := Int.lt_floor_add_one x
  unfold roundHalfEven
  rw [abs_le]
  split_ifs with h3 h4 h5 <;> push_cast <;> constructor <;> linarith

theorem roundHalfEven_mono {x y : ℚ} (h : x ≤ y) : roundHalfEven x ≤ roundHalfEven y := by
  rcases (Int.floor_mono h).lt_or_eq with hlt | heq
  · calc roundHalfEven x ≤ ⌊x⌋ + 1 := roundHalfEven_le_floor_add_one x
      _ ≤ ⌊y⌋ := hlt
      _ ≤ roundHalfEven y := floor_le_roundHalfEven y
  · unfold roundHalfEven
    rw [heq]
    split_ifs <;> first | omega | (exfalso; linarith)

theorem roundHalfEven_eq_of_abs_lt {x : ℚ} {n : ℤ} (h : |x - n| < 1 / 2) :
    roundHalfEven x = n := by
  have h1 := abs_roundHalfEven_sub_le x
  have h2 : |((roundHalfEven x - n : ℤ) : ℚ)| < 1 := by
    push_cast
    calc |(roundHalfEven x : ℚ) - n| = |((roundHalfEven x : ℚ) - x) + (x - n)| := by ring_nf
      _ ≤ |(roundHalfEven x : ℚ) - x| + |x - n| := abs_add _ _
      _ < 1 := by linarith
  have h3 : |roundHalfEven x - n| < 1 := by exact_mod_cast h2
  have := Int.abs_lt_one_iff.mp h3
  omega

/-! ## rounding to the binary64 grid -/

theorem ulp_pos (q : ℚ) : 0 < ulp q := by
  unfold ulp; positivity

theorem binade_ge (q : ℚ) : -1022 ≤ binade q := le_max_right _ _

theorem abs_lt_zpow_binade_succ (q : ℚ) : |q| < (2 : ℚ) ^ (binade q + 1) := by
  have h1 := Int.lt_zpow_succ_log_self (R := ℚ) (b := 2) (by norm_num) |q|
  have h2 : ((2 : ℕ) : ℚ) ^ (Int.log 2 |q| + 1) ≤ (2 : ℚ) ^ (binade q + 1) := by
    push_cast
    apply zpow_le_zpow_right₀ (by norm_num)
    have := le_max_left (Int.log 2 |q|) (-1022)
    unfold binade; omega
  exact lt_of_lt_of_le h1 h2

theorem binade_eq_log {q : ℚ} (hq : (2 : ℚ) ^ (-1022 : ℤ) ≤ |q|) : binade q = Int.log 2 |q| := by
  have hpos : 0 < |q| := lt_of_lt_of_le (by positivity) hq
  have : (-1022 : ℤ) ≤ Int.log 2 |q| := by
    rw [← Int.zpow_le_iff_le_log (by norm_num) hpos]
    exact_mod_cast hq
  exact max_eq_left this

theorem zpow_binade_le {q : ℚ} (hq : (2 : ℚ) ^ (-1022 : ℤ) ≤ |q|) : (2 : ℚ) ^ binade q ≤ |q| := by
  have hpos : 0 < |q| := lt_of_lt_of_le (by positivity) hq
  rw [binade_eq_log hq]
  have := Int.zpow_log_le_self (R := ℚ) (b := 2) (by norm_num) hpos
  exact_mod_cast this

theorem binade_eq_of {q : ℚ} {e : ℤ} (he : -1022 ≤ e) (h1 : (2 : ℚ) ^ e ≤ |q|)
    (h2 : |q| < (2 : ℚ) ^ (e + 1)) : binade q = e := by
  have hpos : 0 < |q| := lt_of_lt_of_le (by positivity) h1
  have h3 : e ≤ Int.log 2 |q| := by
    rw [← Int.zpow_le_iff_le_log (by norm_num) hpos]
    exact_mod_cast h1
  have h4 : Int.log 2 |q| < e + 1 := by
    rw [← Int.lt_zpow_iff_log_lt (by norm_num) hpos]
    exact_mod_cast h2
  unfold binade
  rw [max_eq_left (by omega)]
  omega

theorem binade_mono {x y : ℚ} (hx : x ≠ 0) (h : |x| ≤ |y|) : binade x ≤ binade y := by
  unfold binade
  exact max_le_max (Int.log_mono_right (abs_pos.mpr hx) h) le_rfl

theorem roundToGrid_zero : roundToGrid 0 = 0 := by
  simp [roundToGrid, roundHalfEven]

theorem le_roundToGrid_of_grid_le {q : ℚ} {n : ℤ} (h : (n : ℚ) * ulp q ≤ q) :
    (n : ℚ) * ulp q ≤ roundToGrid q := by
  unfold roundToGrid
  have h1 : (n : ℚ) ≤ q / ulp q := (le_div_iff₀ (ulp_pos q)).mpr h
  have h2 := roundHalfEven_mono h1
  rw [roundHalfEven_intCast] at h2
  exact mul_le_mul_of_nonneg_right (by exact_mod_cast h2) (ulp_pos q).le

theorem roundToGrid_le_of_le_grid {q : ℚ} {n : ℤ} (h : q ≤ (n : ℚ) * ulp q) :
    roundToGrid q ≤ (n : ℚ) * ulp q := by
  unfold roundToGrid
  have h1 : q / ulp q ≤ (n : ℚ) := (div_le_iff₀ (ulp_pos q)).mpr h
  have h2 := roundHalfEven_mono h1
  rw [roundHalfEven_intCast] at h2
  exact mul_le_mul_of_nonneg_right (by exact_mod_cast h2) (ulp_pos q).le

theorem roundToGrid_nonneg {q : ℚ} (h : 0 ≤ q) : 0 ≤ roundToGrid q := by
  have := le_roundToGrid_of_grid_le (q := q) (n := 0) (by simpa using h)
  simpa using this

theorem roundToGrid_nonpos {q : ℚ} (h : q ≤ 0) : roundToGrid q ≤ 0 := by
  have := roundToGrid_le_of_le_grid (q := q) (n := 0) (by simpa using h)
  simpa using this

theorem abs_roundToGrid_sub_le (q : ℚ) : |roundToGrid q - q| ≤ ulp q / 2 := by
  have h := abs_roundHalfEven_sub_le (q / ulp q)
  have hu := ulp_pos q
  have : roundToGrid q - q = ((roundHalfEven (q / ulp q) : ℚ) - q / ulp q) * ulp q := by
    unfold roundToGrid; field_simp
  rw [this, abs_mul, abs_of_pos hu]
  calc _ ≤ 1 / 2 * ulp q := mul_le_mul_of_nonneg_right h hu.le
    _ = ulp q / 2 := by ring

theorem ulp_eq_mul (q : ℚ) : ulp q = (2 : ℚ) ^ binade q * (2 : ℚ) ^ (-52 : ℤ) := by
  unfold ulp
  rw [← zpow_add₀ (by norm_num)]
  rfl

theorem abs_roundToGrid_sub_le_rel {q : ℚ} (hq : (2 : ℚ) ^ (-1022 : ℤ) ≤ |q|) :
    |roundToGrid q - q| ≤ |q| * (2 : ℚ) ^ (-53 : ℤ) := by
  have h1 := abs_roundToGrid_sub_le q
  have h2 := zpow_binade_le hq
  rw [ulp_eq_mul] at h1
  have h3 : (2 : ℚ) ^ binade q * (2 : ℚ) ^ (-52 : ℤ) / 2 = (2 : ℚ) ^ binade q * (2 : ℚ) ^ (-53 : ℤ) := by
    norm_num; ring
  rw [h3] at h1
  exact h1.trans (mul_le_mul_of_nonneg_right h2 (by positivity))

theorem roundToGrid_mono {x y : ℚ} (hx : 0 < x) (h : x ≤ y) : roundToGrid x ≤ roundToGrid y := by
  have hy : 0 < y := lt_of_lt_of_le hx h
  have hb : binade x ≤ binade y :=
    binade_mono hx.ne' (by rwa [abs_of_pos hx, abs_of_pos hy])
  rcases hb.lt_or_eq with hlt | heq
  · have h1 : roundToGrid x ≤ (2 : ℚ) ^ (binade x + 1) := by
      have hle : x ≤ ((2 ^ 53 : ℤ) : ℚ) * ulp x := by
        have := abs_lt_zpow_binade_succ x
        rw [abs_of_pos hx] at this
        rw [ulp_eq_mul]
        have e : (2 : ℚ) ^ (binade x + 1) = ((2 ^ 53 : ℤ) : ℚ) * ((2 : ℚ) ^ binade x * (2 : ℚ) ^ (-52 : ℤ)) := by
          rw [zpow_add₀ (by norm_num)]; norm_num; ring
        linarith
      have := roundToGrid_le_of_le_grid hle
      have e : (2 : ℚ) ^ (binade x + 1) = ((2 ^ 53 : ℤ) : ℚ) * ulp x := by
        rw [ulp_eq_mul, zpow_add₀ (by norm_num)]; norm_num; ring
      rw [e]; exact this
    have h2 : (2 : ℚ) ^ binade y ≤ roundToGrid y := by
      have hyn : (2 : ℚ) ^ (-1022 : ℤ) ≤ |y| := by
        by_contra hc
        push_neg at hc
        have hlog : Int.log 2 |y| < -1022 := by
          rw [← Int.lt_zpow_iff_log_lt (by norm_num) (abs_pos.mpr hy.ne')]
          exact_mod_cast hc
        have : binade y = -1022 := max_eq_right hlog.le
        have := binade_ge x
        omega
      have hle : ((2 ^ 52 : ℤ) : ℚ) * ulp y ≤ y := by
        have := zpow_binade_le hyn
        rw [abs_of_pos hy] at this
        rw [ulp_eq_mul]
        have e : ((2 ^ 52 : ℤ) : ℚ) * ((2 : ℚ) ^ binade y * (2 : ℚ) ^ (-52 : ℤ)) = (2 : ℚ) ^ binade y := by
          norm_num; ring
        linarith
      have := le_roundToGrid_of_grid_le hle
      have e : (2 : ℚ) ^ binade y = ((2 ^ 52 : ℤ) : ℚ) * ulp y := by
        rw [ulp_eq_mul]; norm_num; ring
      rw [e]; exact this
    have h3 : (2 : ℚ) ^ (binade x + 1) ≤ (2 : ℚ) ^ binade y :=
      zpow_le_zpow_right₀ (by norm_num) (by omega)
    linarith
  · unfold roundToGrid
    have hu : ulp x = ulp y := by unfold ulp; rw [heq]
    rw [hu]
    have : x / ulp y ≤ y / ulp y := div_le_div_of_nonneg_right h (ulp_pos y).le
    exact mul_le_mul_of_nonneg_right (by exact_mod_cast roundHalfEven_mono this) (ulp_pos y).le



theorem binade_le_of_abs_lt {q : ℚ} {e : ℤ} (he : -1022 ≤ e) (hq : q ≠ 0)
    (h : |q| < (2 : ℚ) ^ (e + 1)) : binade q ≤ e := by
  have hpos : 0 < |q| := abs_pos.mpr hq
  have h4 : Int.log 2 |q| < e + 1 := by
    rw [← Int.lt_zpow_iff_log_lt (by norm_num) hpos]
    exact_mod_cast h
  unfold binade
  exact max_le (by omega) he

/-- A multiple `n * 2^k` of a power of two, with `|n| < 2^53` and `k` at least the
exponent `-1074` of the least subnormal, is a binary64 value: rounding keeps it. -/
theorem roundToGrid_grid (n k : ℤ) (hn : |n| < 2 ^ 53) (hk : -1074 ≤ k) :
    roundToGrid ((n : ℚ) * (2 : ℚ) ^ k) = (n : ℚ) * (2 : ℚ) ^ k := by
  rcases eq_or_ne n 0 with rfl | hn0
  · simp [roundToGrid_zero]
  have hq : (n : ℚ) * (2 : ℚ) ^ k ≠ 0 := by
    have : (n : ℚ) ≠ 0 := by exact_mod_cast hn0
    positivity
  have hb : binade ((n : ℚ) * (2 : ℚ) ^ k) ≤ k + 52 := by
    apply binade_le_of_abs_lt (by omega) hq
    rw [abs_mul, abs_of_pos (by positivity : (0 : ℚ) < 2 ^ k)]
    have h1 : |(n : ℚ)| < 2 ^ 53 := by exact_mod_cast hn
    have e : (2 : ℚ) ^ (k + 52 + 1) = 2 ^ 53 * (2 : ℚ) ^ k := by
      rw [show k + 52 + 1 = 53 + k by ring, zpow_add₀ (by norm_num)]; norm_num
    rw [e]
    exact mul_lt_mul_of_pos_right h1 (by positivity)
  obtain ⟨j, hj⟩ : ∃ j : ℕ, (j : ℤ) = k + 52 - binade ((n : ℚ) * (2 : ℚ) ^ k) :=
    ⟨(k + 52 - binade ((n : ℚ) * (2 : ℚ) ^ k)).toNat, by omega⟩
  have hk' : (2 : ℚ) ^ k = ((2 ^ j : ℤ) : ℚ) * ulp ((n : ℚ) * (2 : ℚ) ^ k) := by
    unfold ulp
    push_cast
    rw [← zpow_natCast, ← zpow_add₀ (by norm_num), hj]
    congr 1; ring
  have hgrid : (n : ℚ) * (2 : ℚ) ^ k = ((n * 2 ^ j : ℤ) : ℚ) * ulp ((n : ℚ) * (2 : ℚ) ^ k) := by
    push_cast
    push_cast at hk'
    rw [mul_assoc, ← hk']
  have h1 := le_roundToGrid_of_grid_le hgrid.ge
  have h2 := roundToGrid_le_of_le_grid hgrid.le
  rw [← hgrid] at h1 h2
  exact le_antisymm h2 h1

theorem roundToGrid_intCast (n : ℤ) (hn : |n| < 2 ^ 53) : roundToGrid (n : ℚ) = n := by
  simpa using roundToGrid_grid n 0 hn (by norm_num)

theorem roundToGrid_two_zpow (k : ℤ) (hk : -1074 ≤ k) : roundToGrid ((2 : ℚ) ^ k) = (2 : ℚ) ^ k := by
  simpa using roundToGrid_grid 1 k (by norm_num) hk

/-! ## rounding to `float64` -/

theorem overflow_pos : (0 : ℚ) < F64.overflow := by
  unfold F64.overflow; positivity

theorem le_overflow_of_le_zpow {x : ℚ} {k : ℤ} (hk : k ≤ 1024) (h : x ≤ (2 : ℚ) ^ k) :
    x ≤ F64.overflow := by
  have : (2 : ℚ) ^ k ≤ (2 : ℚ) ^ (1024 : ℤ) := zpow_le_zpow_right₀ (by norm_num) hk
  have e : (2 : ℚ) ^ (1024 : ℤ) = F64.overflow := by
    unfold F64.overflow; exact zpow_natCast 2 1024
  linarith

theorem lt_overflow_of_le_pow {x : ℚ} {k : ℕ} (hk : k < 1024) (h : x ≤ (2 : ℚ) ^ k) :
    x < F64.overflow := by
  have : (2 : ℚ) ^ k < (2 : ℚ) ^ 1024 := pow_lt_pow_right₀ (by norm_num) hk
  unfold F64.overflow
  linarith

theorem ofRat_eq_fin {q : ℚ} (h1 : roundToGrid q < F64.overflow)
    (h2 : -F64.overflow < roundToGrid q) (h3 : roundToGrid q ≠ 0 ∨ 0 ≤ q) :
    F64.ofRat q = .fin (roundToGrid q) := by
  unfold F64.ofRat
  rw [if_neg (not_le.mpr h1), if_neg (not_le.mpr h2), if_neg]
  rintro ⟨h4, h5⟩
  rcases h3 with h3 | h3
  · exact h3 h4
  · exact absurd h5 (not_lt.mpr h3)

/-- Rounding keeps a value between two positive binary64 values between them. -/
theorem ofRat_of_mem_Icc (q lo hi : ℚ) (hlo : 0 < lo) (rlo : roundToGrid lo = lo)
    (rhi : roundToGrid hi = hi) (hhi : hi < F64.overflow) (h1 : lo ≤ q) (h2 : q ≤ hi) :
    ∃ r, F64.ofRat q = .fin r ∧ lo ≤ r ∧ r ≤ hi := by
  have hq : 0 < q := lt_of_lt_of_le hlo h1
  have h3 : lo ≤ roundToGrid q := rlo ▸ roundToGrid_mono hlo h1
  have h4 : roundToGrid q ≤ hi := rhi ▸ roundToGrid_mono hq h2
  refine ⟨roundToGrid q, ofRat_eq_fin (by linarith) ?_ (Or.inr hq.le), h3, h4⟩
  have := overflow_pos
  linarith

theorem ofRat_intCast (n : ℤ) (hn : |n| < 2 ^ 53) : F64.ofRat (n : ℚ) = .fin n := by
  have h := roundToGrid_intCast n hn
  have h1 : |(n : ℚ)| < 2 ^ 53 := by exact_mod_cast hn
  have h2 := abs_lt.mp h1
  have h3 : ((2 : ℚ) ^ 53) < F64.overflow := lt_overflow_of_le_pow (by norm_num) le_rfl
  rw [ofRat_eq_fin (by rw [h]; linarith) (by rw [h]; linarith) (by
    rw [h]
    rcases le_or_lt 0 n with h0 | h0
    · exact Or.inr (by exact_mod_cast h0)
    · exact Or.inl (by exact_mod_cast h0.ne)), h]

theorem ofRat_nonPos {q : ℚ} (h : q ≤ 0) : (F64.ofRat q).NonPos := by
  have h1 := roundToGrid_nonpos h
  unfold F64.ofRat
  have := overflow_pos
  rw [if_neg (by linarith)]
  split_ifs
  · exact trivial
  · exact trivial
  · exact h1

theorem gt_zero_of_nonPos {x : F64} (h : x.NonPos) : x.gt 0 = false := by
  cases x <;> simp_all [F64.NonPos, F64.gt]

theorem div_nonPos {x : F64} {c : ℚ} (h : x.NonPos) (hc : 0 < c) : (F64.div x (.fin c)).NonPos := by
  cases x with
  | fin r =>
    have hr : r ≤ 0 := h
    simp only [F64.div, hc.ne', if_false]
    split_ifs with h0
    · simp [F64.zero, F64.NonPos, not_lt.mpr hc.le]
    · exact ofRat_nonPos (div_nonpos_of_nonpos_of_nonneg hr hc.le)
  | nzero => simp [F64.div, F64.isInf, F64.isZero, F64.signBit, F64.zero, F64.NonPos, hc.ne', not_lt.mpr hc.le]
  | ninf => simp [F64.div, F64.isInf, F64.isZero, F64.signBit, F64.infinity, F64.NonPos, not_lt.mpr hc.le]
  | pinf => exact absurd h (by simp [F64.NonPos])
  | nan => exact absurd h (by simp [F64.NonPos])

theorem div_fin_fin {x y : ℚ} (hx : x ≠ 0) (hy : y ≠ 0) :
    F64.div (.fin x) (.fin y) = F64.ofRat (x / y) := by
  simp [F64.div, hx, hy]

/-! ## machine integers -/

theorem wrapInt64_range (x : ℤ) : -2 ^ 63 ≤ wrapInt64 x ∧ wrapInt64 x < 2 ^ 63 := by
  unfold wrapInt64; omega

theorem wrapInt64_of_range {x : ℤ} (h1 : -2 ^ 63 ≤ x) (h2 : x < 2 ^ 63) : wrapInt64 x = x := by
  unfold wrapInt64; omega

theorem Int64_range (x : ℤ) : -2 ^ 63 ≤ Int64 x ∧ Int64 x < 2 ^ 63 := by
  unfold Int64
  split_ifs <;> exact wrapInt64_range _

theorem Int64_of_range {x : ℤ} (h1 : -2 ^ 63 ≤ x) (h2 : x < 2 ^ 63) : Int64 x = x := by
  unfold Int64 wrapInt64
  split_ifs <;> omega

theorem truncRat_of_nonneg {q : ℚ} (h : 0 ≤ q) : truncRat q = ⌊q⌋ := by
  simp [truncRat, h]

theorem blockDelay_ns : wrapInt64 (Second * wrapInt64 BlockDelaySecs) = 30000000000 := by
  decide

theorem day_ns : wrapInt64 (Hour * 24) = 86400000000000 := by
  decide

/-! ## the win-rate derivation -/

theorem lt_overflow_of_le {x : ℚ} (h : x ≤ 2 ^ 64) : x < F64.overflow :=
  lt_overflow_of_le_pow (k := 64) (by norm_num) h

theorem roundToGrid_of_eq {x : ℚ} (n k : ℤ) (hn : |n| < 2 ^ 53) (hk : -1074 ≤ k)
    (hx : x = (n : ℚ) * (2 : ℚ) ^ k) : roundToGrid x = x := by
  rw [hx]; exact roundToGrid_grid n k hn hk

/-- The per-epoch expectation of a positive `int64` count of millionths is a
finite `float64` between `2^-20` and `2^44`. -/
theorem expWinChance_of_pos {n : ℤ} (h1 : 1 ≤ n) (h2 : n < 2 ^ 63) :
    ∃ e, F64.div (F64.ofInt n) (.fin 1000000) = .fin e ∧
      1 / 1048576 ≤ e ∧ e ≤ 17592186044416 := by
  have hn1 : (1 : ℚ) ≤ n := by exact_mod_cast h1
  have hn2 : (n : ℚ) ≤ 9223372036854775808 := by exact_mod_cast h2.le
  obtain ⟨a, ha, ha1, ha2⟩ := ofRat_of_mem_Icc ((n : ℚ)) (1)
    (9223372036854775808) (by norm_num)
    (roundToGrid_of_eq 1 0 (by norm_num) (by norm_num) (by norm_num))
    (roundToGrid_of_eq 1 63 (by norm_num) (by norm_num) (by norm_num))
    (lt_overflow_of_le (by norm_num)) hn1 hn2
  obtain ⟨e, he, he1, he2⟩ := ofRat_of_mem_Icc (a / 1000000) (1 / 1048576)
    (17592186044416) (by norm_num)
    (roundToGrid_of_eq 1 (-20) (by norm_num) (by norm_num) (by norm_num))
    (roundToGrid_of_eq 1 44 (by norm_num) (by norm_num) (by norm_num))
    (lt_overflow_of_le (by norm_num))
    (by rw [le_div_iff₀ (by norm_num)]; linarith)
    (by rw [div_le_iff₀ (by norm_num)]; linarith)
  refine ⟨e, ?_, he1, he2⟩
  unfold F64.ofInt
  rw [ha, div_fin_fin (by linarith) (by norm_num), he]

/-- From a per-epoch expectation between `2^-20` and `1`, the code's last two
divisions give a finite rate between `2^-9` and `2880`. -/
theorem rate_of_chance {c : ℚ} (h1 : 1 / 1048576 ≤ c) (h2 : c ≤ 1) :
    ∃ w, F64.div (F64.ofInt (wrapInt64 (Hour * 24)))
        (F64.ofInt (F64.toInt64
          (F64.div (F64.ofInt (wrapInt64 (Second * wrapInt64 BlockDelaySecs))) (.fin c)))) = .fin w ∧
      1 / 512 ≤ w ∧ w ≤ 2880 := by
  have hc : 0 < c := lt_of_lt_of_le (by norm_num) h1
  rw [blockDelay_ns, day_ns]
  unfold F64.ofInt
  rw [ofRat_intCast 86400000000000 (by norm_num), ofRat_intCast 30000000000 (by norm_num)]
  push_cast
  rw [div_fin_fin (by norm_num) hc.ne']
  obtain ⟨y, hy, hy1, hy2⟩ := ofRat_of_mem_Icc (30000000000 / c) (30000000000)
    (31457280000000000) (by norm_num)
    (roundToGrid_of_eq 30000000000 0 (by norm_num) (by norm_num) (by norm_num))
    (roundToGrid_of_eq 29296875 30 (by norm_num) (by norm_num) (by norm_num))
    (lt_overflow_of_le (by norm_num))
    (by rw [le_div_iff₀ hc]; nlinarith)
    (by rw [div_le_iff₀ hc]; nlinarith)
  rw [hy]
  have hy0 : (0 : ℚ) ≤ y := by linarith
  have hf1 : (30000000000 : ℤ) ≤ ⌊y⌋ := Int.le_floor.mpr (by push_cast; linarith)
  have hf2 : ⌊y⌋ ≤ (31457280000000000 : ℤ) := by
    have : (⌊y⌋ : ℚ) ≤ y := Int.floor_le y
    have : (⌊y⌋ : ℚ) ≤ (31457280000000000 : ℤ) := by push_cast; linarith
    exact_mod_cast this
  have ht : F64.toInt64 (.fin y) = ⌊y⌋ := by
    show (if -2 ^ 63 ≤ truncRat y ∧ truncRat y < 2 ^ 63 then truncRat y else -2 ^ 63) = ⌊y⌋
    rw [truncRat_of_nonneg hy0, if_pos ⟨by omega, by omega⟩]
  rw [ht]
  obtain ⟨r, hr, hr1, hr2⟩ := ofRat_of_mem_Icc (((⌊y⌋ : ℤ) : ℚ)) (30000000000)
    (31457280000000000) (by norm_num)
    (roundToGrid_of_eq 30000000000 0 (by norm_num) (by norm_num) (by norm_num))
    (roundToGrid_of_eq 29296875 30 (by norm_num) (by norm_num) (by norm_num))
    (lt_overflow_of_le (by norm_num))
    (by exact_mod_cast hf1) (by exact_mod_cast hf2)
  rw [hr]
  have hr0 : 0 < r := by linarith
  rw [div_fin_fin (by norm_num) hr0.ne']
  exact ofRat_of_mem_Icc (86400000000000 / r) (1 / 512)
    (2880)
    (by norm_num)
    (roundToGrid_of_eq 1 (-9) (by norm_num) (by norm_num) (by norm_num))
    (roundToGrid_of_eq 2880 0 (by norm_num) (by norm_num) (by norm_num))
    (lt_overflow_of_le (by norm_num))
    (by rw [le_div_iff₀ hr0]; linarith)
    (by rw [div_le_iff₀ hr0]; linarith)

theorem winPerDay_of_not_eligible {pow : api.MinerPower} (h : pow.HasMinPower = false) :
    winPerDay pow = some (.fin 0) := by
  simp [winPerDay, h]

theorem winPerDay_of_zero_total {pow : api.MinerPower} (h : pow.HasMinPower = true)
    (ht : pow.TotalPower.QualityAdjPower = 0) : winPerDay pow = none := by
  simp [winPerDay, h, ht, BigDiv]

/-- The count of millionths that the code converts to `float64`. -/
theorem winPerDay_of_count_nonpos {pow : api.MinerPower} (h : pow.HasMinPower = true)
    (ht : pow.TotalPower.QualityAdjPower ≠ 0)
    (hn : Int64 (BigMul (BigMul pow.MinerPower.QualityAdjPower 1000000 /
      pow.TotalPower.QualityAdjPower) BlocksPerEpoch) ≤ 0) :
    winPerDay pow = some (.fin 0) := by
  have hx : (F64.ofInt (Int64 (BigMul (BigMul pow.MinerPower.QualityAdjPower 1000000 /
      pow.TotalPower.QualityAdjPower) BlocksPerEpoch))).NonPos :=
    ofRat_nonPos (by exact_mod_cast hn)
  have hg := gt_zero_of_nonPos (div_nonPos hx (c := 1000000) (by norm_num))
  simp only [winPerDay, h, BigDiv, ht, if_false, Bool.not_true, Bool.false_eq_true]
  rw [if_neg (by rw [hg]; simp)]

theorem winPerDay_of_count_pos {pow : api.MinerPower} (h : pow.HasMinPower = true)
    (ht : pow.TotalPower.QualityAdjPower ≠ 0)
    (hn : 1 ≤ Int64 (BigMul (BigMul pow.MinerPower.QualityAdjPower 1000000 /
      pow.TotalPower.QualityAdjPower) BlocksPerEpoch)) :
    ∃ w, winPerDay pow = some (.fin w) ∧ 1 / 512 ≤ w ∧ w ≤ 2880 := by
  obtain ⟨e, he, he1, he2⟩ := expWinChance_of_pos hn (Int64_range _).2
  have hg : (F64.fin e).gt 0 = true := by
    simp only [F64.gt, decide_eq_true_eq]; linarith
  simp only [winPerDay, h, BigDiv, ht, if_false, Bool.not_true, Bool.false_eq_true, he, hg,
    if_true]
  by_cases h1 : 1 < e
  · have hg1 : (F64.fin e).gt 1 = true := by simp [F64.gt, h1]
    rw [hg1, if_pos rfl]
    obtain ⟨w, hw, hw1, hw2⟩ := rate_of_chance (c := 1) (by norm_num) le_rfl
    exact ⟨w, by rw [hw], hw1, hw2⟩
  · have hg1 : (F64.fin e).gt 1 = false := by simp [F64.gt, h1]
    rw [hg1, if_neg (by simp)]
    obtain ⟨w, hw, hw1, hw2⟩ := rate_of_chance (c := e) he1 (not_lt.mp h1)
    exact ⟨w, by rw [hw], hw1, hw2⟩

/-- For an eligible account and a non-zero network total the derivation ends
with a finite rate between 0 and 2880. -/
theorem winPerDay_bounds {pow : api.MinerPower} (h : pow.HasMinPower = true)
    (ht : pow.TotalPower.QualityAdjPower ≠ 0) :
    ∃ w, winPerDay pow = some (.fin w) ∧ 0 ≤ w ∧ w ≤ 2880 := by
  rcases le_or_lt (Int64 (BigMul (BigMul pow.MinerPower.QualityAdjPower 1000000 /
      pow.TotalPower.QualityAdjPower) BlocksPerEpoch)) 0 with hn | hn
  · exact ⟨0, winPerDay_of_count_nonpos h ht hn, le_rfl, by norm_num⟩
  · obtain ⟨w, hw, hw1, hw2⟩ := winPerDay_of_count_pos h ht hn
    exact ⟨w, hw, by linarith [show (0 : ℚ) ≤ 1 / 512 by norm_num], hw2⟩

/-! ## computations that issue queries -/

theorem Run.bind_def {α β : Type} (x : Run α) (f : α → Run β) : x >>= f = Run.bind x f := rfl

theorem Run.pure_def {α : Type} (a : α) : (pure a : Run α) = Run.pure a := rfl

theorem Run.bind_of_ok {α β : Type} {x : Run α} {a : α} (h : x.result = .ok a) (f : α → Run β) :
    Run.bind x f = ⟨x.trace ++ (f a).trace, (f a).result⟩ := by
  simp [Run.bind, h]

theorem Run.bind_of_error {α β : Type} {x : Run α} {e : Failure} (h : x.result = .error e)
    (f : α → Run β) : Run.bind x f = ⟨x.trace, .error e⟩ := by
  simp [Run.bind, h]

theorem call_of_ok {α : Type} (q : Query) {r : Except String α} {a : α} (h : r = .ok a) :
    call q r = ⟨[⟨q, true⟩], .ok a⟩ := by
  subst h; rfl

theorem aborts_pure {α : Type} (a : α) : (Run.pure a).Aborts := by
  simp [Run.Aborts, Run.pure]

theorem aborts_call {α : Type} (q : Query) (r : Except String α) : (call q r).Aborts := by
  cases r <;> simp [Run.Aborts, call]

theorem aborts_orPanic {α : Type} (msg : String) (o : Option α) : (orPanic msg o).Aborts := by
  cases o <;> simp [Run.Aborts, orPanic]

theorem aborts_bind {α β : Type} {x : Run α} {f : α → Run β} (hx : x.Aborts)
    (hf : ∀ a, (f a).Aborts) : (Run.bind x f).Aborts := by
  unfold Run.Aborts at *
  cases hr : x.result with
  | error e =>
    rw [Run.bind_of_error hr]
    rw [hr] at hx
    simpa using hx
  | ok a =>
    rw [Run.bind_of_ok hr]
    rw [hr] at hx
    have hno : ¬ ∃ c ∈ x.trace, c.ok = false := by
      rw [hx]; simp
    have := hf a
    constructor
    · rintro ⟨c, hc, hok⟩
      rcases List.mem_append.mp hc with h1 | h1
      · exact absurd ⟨c, h1, hok⟩ hno
      · exact this.mp ⟨c, h1, hok⟩
    · intro h
      obtain ⟨c, hc, hok⟩ := this.mpr h
      exact ⟨c, List.mem_append.mpr (Or.inr hc), hok⟩

theorem aborts_sumControlBalances (d : Daemon) (l : List Address) (cbsum : ℤ) :
    (sumControlBalances d l cbsum).Aborts := by
  induction l generalizing cbsum with
  | nil => exact aborts_pure _
  | cons ca rest ih =>
    unfold sumControlBalances
    exact aborts_bind (aborts_call _ _) (fun b => ih _)

/-- `GetMinerInfo` returns an `error` exactly when one of the queries it issued failed. -/
theorem aborts_GetMinerInfo (d : Daemon) (minerAddr : Address) (minerID : String)
    (tpKey : TipSetKey) : (GetMinerInfo d minerAddr minerID tpKey).Aborts := by
  unfold GetMinerInfo
  simp only [Run.bind_def, Run.pure_def]
  refine aborts_bind (aborts_call _ _) (fun mact => ?_)
  refine aborts_bind (aborts_call _ _) (fun mas => ?_)
  refine aborts_bind (aborts_call _ _) (fun mi => ?_)
  refine aborts_bind (aborts_call _ _) (fun pow => ?_)
  refine aborts_bind (aborts_call _ _) (fun secCounts => ?_)
  refine aborts_bind (aborts_orPanic _ _) (fun win => ?_)
  refine aborts_bind (aborts_call _ _) (fun lockedFunds => ?_)
  refine aborts_bind (aborts_call _ _) (fun availBalance => ?_)
  refine aborts_bind (aborts_call _ _) (fun wb => ?_)
  refine aborts_bind ?_ (fun cb => aborts_pure _)
  split_ifs
  · exact aborts_bind (aborts_sumControlBalances _ _ _) (fun cbsum => aborts_pure _)
  · exact aborts_pure _

/-! ## a cycle in which every query succeeds -/

theorem ConvertBalance_zero : ConvertBalance 0 = .fin 0 := by
  simp [ConvertBalance]

theorem sumControlBalances_of_ok (d : Daemon) (bal : Address → ℤ) (l : List Address)
    (h : ∀ ca ∈ l, d.WalletBalance ca = .ok (bal ca)) (cbsum : ℤ) :
    sumControlBalances d l cbsum =
      ⟨l.map (fun ca => ⟨.WalletBalance ca, true⟩), .ok (cbsum + (l.map bal).sum)⟩ := by
  induction l generalizing cbsum with
  | nil => simp [sumControlBalances, Run.pure]
  | cons ca rest ih =>
    have h1 : d.WalletBalance ca = .ok (bal ca) := h ca (List.mem_cons_self _ _)
    have h2 : ∀ c ∈ rest, d.WalletBalance c = .ok (bal c) :=
      fun c hc => h c (List.mem_cons_of_mem _ hc)
    unfold sumControlBalances
    rw [call_of_ok _ h1, Run.bind_of_ok rfl, ih h2]
    simp [BigAdd, add_assoc]

/-- The queries of a cycle in which every query succeeds, in the order of issue. -/
theorem GetMinerInfo_of_answers {d : Daemon} {minerAddr : Address} {tpKey : TipSetKey}
    {ans : Answers} (minerID : String) (h : d.answers minerAddr tpKey ans) {win : F64}
    (hw : winPerDay ans.pow = some win) :
    GetMinerInfo d minerAddr minerID tpKey =
      ⟨[⟨.StateGetActor minerAddr tpKey, true⟩, ⟨.Load ans.mact, true⟩,
          ⟨.StateMinerInfo minerAddr tpKey, true⟩, ⟨.StateMinerPower minerAddr tpKey, true⟩,
          ⟨.StateMinerSectorCount minerAddr tpKey, true⟩, ⟨.LockedFunds ans.mas, true⟩,
          ⟨.AvailableBalance ans.mas ans.mact.Balance, true⟩,
          ⟨.WalletBalance ans.mi.Worker, true⟩] ++
        ans.mi.ControlAddresses.map (fun ca => ⟨.WalletBalance ca, true⟩),
       .ok
        { MinerID := minerID
          TotalRawBytePower := ConvertPower ans.pow.TotalPower.RawBytePower
          TotalQualityPower := ConvertPower ans.pow.TotalPower.QualityAdjPower
          MinerRawBytePower := ConvertPower ans.pow.MinerPower.RawBytePower
          MinerQualityPower := ConvertPower ans.pow.MinerPower.QualityAdjPower
          WinPerDay := win
          SectorsCommitted := F64.ofInt ans.secCounts.Live
          SectorsActive := F64.ofInt ans.secCounts.Active
          SectorsFaulty := F64.ofInt ans.secCounts.Faulty
          WorkerBalance := ConvertBalance ans.wb
          ControlBalance := ConvertBalance (ans.mi.ControlAddresses.map ans.balance).sum
          MinerBalance := ConvertBalance ans.mact.Balance
          AvailableBalance := ConvertBalance ans.availBalance
          PledgedBalance := ConvertPower ans.lockedFunds.InitialPledgeRequirement
          PreCommitBalance := ConvertBalance ans.lockedFunds.PreCommitDeposits
          VestingBalance := ConvertBalance ans.lockedFunds.VestingFunds }⟩ := by
  obtain ⟨h1, h2, h3, h4, h5, h6, h7, h8, h9⟩ := h
  unfold GetMinerInfo
  simp only [Run.bind_def, Run.pure_def]
  rw [call_of_ok _ h1, Run.bind_of_ok rfl, call_of_ok _ h2, Run.bind_of_ok rfl,
    call_of_ok _ h3, Run.bind_of_ok rfl, call_of_ok _ h4, Run.bind_of_ok rfl,
    call_of_ok _ h5, Run.bind_of_ok rfl, hw]
  simp only [orPanic]
  rw [Run.bind_of_ok rfl, call_of_ok _ h6, Run.bind_of_ok rfl, call_of_ok _ h7,
    Run.bind_of_ok rfl, call_of_ok _ h8, Run.bind_of_ok rfl]
  rcases hl : ans.mi.ControlAddresses with _ | ⟨ca, rest⟩
  · rw [if_neg (by simp)]
    simp only [pure, Run.pure, Run.bind, List.map_nil, List.sum_nil, List.append_nil,
      ConvertBalance_zero, List.nil_append, List.cons_append]
  · rw [hl] at h9
    rw [if_pos (by simp), sumControlBalances_of_ok d ans.balance _ h9]
    simp only [pure, bind, Run.pure, Run.bind, List.append_nil, zero_add, List.nil_append,
      List.cons_append]

theorem answers_ofAnswers (ans : Answers) (minerAddr : Address) (tpKey : TipSetKey)
    (h : ans.mi.Worker ∉ ans.mi.ControlAddresses) :
    (Daemon.ofAnswers ans).answers minerAddr tpKey ans := by
  refine ⟨rfl, rfl, rfl, rfl, rfl, rfl, rfl, ?_, ?_⟩
  · simp [Daemon.ofAnswers]
  · intro ca hca
    have : ca ≠ ans.mi.Worker := fun e => h (e ▸ hca)
    simp [Daemon.ofAnswers, this]

theorem result_of_answers {d : Daemon} {minerAddr : Address} {tpKey : TipSetKey}
    {ans : Answers} (minerID : String) (h : d.answers minerAddr tpKey ans) {win : F64}
    (hw : winPerDay ans.pow = some win) :
    ∃ info, (GetMinerInfo d minerAddr minerID tpKey).result = .ok info ∧ info.WinPerDay = win := by
  rw [GetMinerInfo_of_answers minerID h hw]
  exact ⟨_, rfl, rfl⟩

/-! ## the scheduler loop -/

theorem loopBody_of_err {jsonMarshal : MinerInfo → Except String (List UInt8)} {d : Daemon}
    {minerAddr : Address} {minerID : String} {tpKey : TipSetKey} {e : String}
    (h : (GetMinerInfo d minerAddr minerID tpKey).result = .error (.err e)) (s : Store) :
    loopBody jsonMarshal d minerAddr minerID tpKey s = some s := by
  simp [loopBody, h]

theorem loopBody_of_ok (jsonMarshal : MinerInfo → Except String (List UInt8)) {d : Daemon}
    {minerAddr : Address} {minerID : String} {tpKey : TipSetKey} {info : MinerInfo}
    (h : (GetMinerInfo d minerAddr minerID tpKey).result = .ok info) (s : Store) :
    ∃ b, loopBody jsonMarshal d minerAddr minerID tpKey s =
      some { s.setGauges info with infoJson := b } := by
  unfold loopBody
  rw [h]
  dsimp only
  split
  · exact ⟨[], rfl⟩
  · exact ⟨_, rfl⟩

/-! ## the claims -/

/-- C1. If any query that `GetMinerInfo` issues in a refresh cycle fails, the
body of the scheduler loop leaves the store as it was: none of the fifteen
gauges is set and `infoJson` is not replaced. -/
theorem C1_failed_query_keeps_store (jsonMarshal : MinerInfo → Except String (List UInt8))
    (d : Daemon) (minerAddr : Address) (minerID : String) (tpKey : TipSetKey) (s : Store)
    (h : ∃ c ∈ (GetMinerInfo d minerAddr minerID tpKey).trace, c.ok = false) :
    loopBody jsonMarshal d minerAddr minerID tpKey s = some s := by
  obtain ⟨e, he⟩ := (aborts_GetMinerInfo d minerAddr minerID tpKey).mp h
  exact loopBody_of_err he s

theorem C1_witness :
    (∃ c ∈ (GetMinerInfo Daemon.unreachable "f01234" "f01234" EmptyTSK).trace, c.ok = false) ∧
      loopBody (fun _ => .ok [123, 125]) Daemon.unreachable "f01234" "f01234" EmptyTSK
        sampleStore = some sampleStore :=
  have h : ∃ c ∈ (GetMinerInfo Daemon.unreachable "f01234" "f01234" EmptyTSK).trace,
      c.ok = false := ⟨⟨.StateGetActor "f01234" EmptyTSK, false⟩, by
        simp [GetMinerInfo, bind, Run.bind, call, Daemon.unreachable], rfl⟩
  ⟨h, C1_failed_query_keeps_store _ _ _ _ _ _ h⟩

/-- C2. When every query of the cycle succeeds and the power summary says
`HasMinPower = false`, `GetMinerInfo` returns and its `WinPerDay` is exactly 0,
whatever the raw-byte and quality-adjusted powers are (a zero network total
included). -/
theorem C2_not_eligible_wins_zero (d : Daemon) (minerAddr : Address) (minerID : String)
    (tpKey : TipSetKey) (ans : Answers) (h : d.answers minerAddr tpKey ans)
    (hmin : ans.pow.HasMinPower = false) :
    ∃ info, (GetMinerInfo d minerAddr minerID tpKey).result = .ok info ∧
      info.WinPerDay = .fin 0 :=
  result_of_answers minerID h (winPerDay_of_not_eligible hmin)

theorem C2_witness :
    (Daemon.ofAnswers idleAnswers).answers "f01234" EmptyTSK idleAnswers ∧
      idleAnswers.pow.HasMinPower = false ∧
      ∃ info, (GetMinerInfo (Daemon.ofAnswers idleAnswers) "f01234" "f01234" EmptyTSK).result
          = .ok info ∧ info.WinPerDay = .fin 0 :=
  have h : (Daemon.ofAnswers idleAnswers).answers "f01234" EmptyTSK idleAnswers :=
    answers_ofAnswers _ _ _ (by decide)
  ⟨h, rfl, C2_not_eligible_wins_zero _ _ _ _ _ h rfl⟩

/-- C3. When every query of the cycle succeeds and the network quality-adjusted
power is positive, `GetMinerInfo` returns a finite `WinPerDay` that is not
negative and not above `(24 hours) / (BlockDelaySecs seconds) = 2880`, the rate
of a per-epoch expectation of 1: for every account power (one above the network
total included) and either value of the eligibility flag. -/
theorem C3_win_rate_bounds (d : Daemon) (minerAddr : Address) (minerID : String)
    (tpKey : TipSetKey) (ans : Answers) (h : d.answers minerAddr tpKey ans)
    (ht : 0 < ans.pow.TotalPower.QualityAdjPower) :
    ∃ info w, (GetMinerInfo d minerAddr minerID tpKey).result = .ok info ∧
      info.WinPerDay = .fin w ∧ 0 ≤ w ∧
      w ≤ ((24 * Hour : ℤ) : ℚ) / ((BlockDelaySecs * Second : ℤ) : ℚ) ∧
      ((24 * Hour : ℤ) : ℚ) / ((BlockDelaySecs * Second : ℤ) : ℚ) = 2880 := by
  have hc : ((24 * Hour : ℤ) : ℚ) / ((BlockDelaySecs * Second : ℤ) : ℚ) = 2880 := by
    norm_num [Hour, Second, BlockDelaySecs]
  cases hmin : ans.pow.HasMinPower with
  | false =>
    obtain ⟨info, h1, h2⟩ := result_of_answers minerID h (winPerDay_of_not_eligible hmin)
    exact ⟨info, 0, h1, h2, le_rfl, by rw [hc]; norm_num, hc⟩
  | true =>
    obtain ⟨w, hw, hw1, hw2⟩ := winPerDay_bounds hmin ht.ne'
    obtain ⟨info, h1, h2⟩ := result_of_answers minerID h hw
    exact ⟨info, w, h1, h2, hw1, by rw [hc]; exact hw2, hc⟩

theorem C3_witness :
    (Daemon.ofAnswers sampleAnswers).answers "f01234" EmptyTSK sampleAnswers ∧
      0 < sampleAnswers.pow.TotalPower.QualityAdjPower ∧
      ∃ info w, (GetMinerInfo (Daemon.ofAnswers sampleAnswers) "f01234" "f01234" EmptyTSK).result
          = .ok info ∧ info.WinPerDay = .fin w ∧ 0 ≤ w ∧
        w ≤ ((24 * Hour : ℤ) : ℚ) / ((BlockDelaySecs * Second : ℤ) : ℚ) ∧
        ((24 * Hour : ℤ) : ℚ) / ((BlockDelaySecs * Second : ℤ) : ℚ) = 2880 :=
  have h : (Daemon.ofAnswers sampleAnswers).answers "f01234" EmptyTSK sampleAnswers :=
    answers_ofAnswers _ _ _ (by decide)
  ⟨h, by decide, C3_win_rate_bounds _ _ _ _ _ h (by decide)⟩

theorem panic_of_answers {d : Daemon} {minerAddr : Address} {tpKey : TipSetKey}
    {ans : Answers} (minerID : String) (h : d.answers minerAddr tpKey ans)
    (hw : winPerDay ans.pow = none) :
    (GetMinerInfo d minerAddr minerID tpKey).result = .error (.panic "division by zero") := by
  obtain ⟨h1, h2, h3, h4, h5, -⟩ := h
  unfold GetMinerInfo
  simp only [Run.bind_def, Run.pure_def]
  rw [call_of_ok _ h1, Run.bind_of_ok rfl, call_of_ok _ h2, Run.bind_of_ok rfl,
    call_of_ok _ h3, Run.bind_of_ok rfl, call_of_ok _ h4, Run.bind_of_ok rfl,
    call_of_ok _ h5, Run.bind_of_ok rfl, hw]
  rfl

/-- C5, refuted as stated: with the eligibility flag set and a network
quality-adjusted total of zero, every query succeeds, `types.BigDiv` divides by
zero, `GetMinerInfo` panics and the scheduler goroutine ends the process. -/
theorem C5_counterexample :
    (Daemon.ofAnswers zeroTotalAnswers).answers "f01234" EmptyTSK zeroTotalAnswers ∧
      zeroTotalAnswers.pow.TotalPower.QualityAdjPower = 0 ∧
      winPerDay zeroTotalAnswers.pow = none ∧
      (GetMinerInfo (Daemon.ofAnswers zeroTotalAnswers) "f01234" "f01234" EmptyTSK).result
        = .error (.panic "division by zero") ∧
      loopBody (fun _ => .ok [123, 125]) (Daemon.ofAnswers zeroTotalAnswers) "f01234" "f01234"
        EmptyTSK sampleStore = none := by
  have h : (Daemon.ofAnswers zeroTotalAnswers).answers "f01234" EmptyTSK zeroTotalAnswers :=
    answers_ofAnswers _ _ _ (by decide)
  have hw : winPerDay zeroTotalAnswers.pow = none := winPerDay_of_zero_total rfl rfl
  have hp := panic_of_answers "f01234" h hw
  refine ⟨h, rfl, hw, hp, ?_⟩
  simp [loopBody, hp]

/-- C5, amended. When every query of the cycle succeeds, the network
quality-adjusted power is zero and the eligibility flag is false, the cycle
does not fail: `GetMinerInfo` returns with `WinPerDay = 0`, and the loop body
goes on with the gauge `expect_win_per_day` set to 0. -/
theorem C5_zero_total_not_eligible (jsonMarshal : MinerInfo → Except String (List UInt8))
    (d : Daemon) (minerAddr : Address) (minerID : String) (tpKey : TipSetKey) (ans : Answers)
    (s : Store) (h : d.answers minerAddr tpKey ans)
    (ht : ans.pow.TotalPower.QualityAdjPower = 0) (hmin : ans.pow.HasMinPower = false) :
    (∃ info, (GetMinerInfo d minerAddr minerID tpKey).result = .ok info ∧
        info.WinPerDay = .fin 0 ∧ info.TotalQualityPower = .fin 0) ∧
      ∃ s', loopBody jsonMarshal d minerAddr minerID tpKey s = some s' ∧
        s'.expectWinPerDay = .fin 0 := by
  have h0 : ConvertPower 0 = .fin 0 := by
    simpa [ConvertPower] using ofRat_intCast 0 (by norm_num)
  have hg := GetMinerInfo_of_answers minerID h (winPerDay_of_not_eligible hmin)
  rw [ht, h0] at hg
  have h1 := congrArg Run.result hg
  obtain ⟨b, hb⟩ := loopBody_of_ok jsonMarshal h1 s
  exact ⟨⟨_, h1, rfl, rfl⟩, _, hb, rfl⟩

theorem C5_witness :
    (Daemon.ofAnswers idleAnswers).answers "f01234" EmptyTSK idleAnswers ∧
      idleAnswers.pow.TotalPower.QualityAdjPower = 0 ∧ idleAnswers.pow.HasMinPower = false ∧
      (∃ info, (GetMinerInfo (Daemon.ofAnswers idleAnswers) "f01234" "f01234" EmptyTSK).result
          = .ok info ∧ info.WinPerDay = .fin 0 ∧ info.TotalQualityPower = .fin 0) ∧
      ∃ s', loopBody (fun _ => .ok [123, 125]) (Daemon.ofAnswers idleAnswers) "f01234" "f01234"
          EmptyTSK sampleStore = some s' ∧ s'.expectWinPerDay = .fin 0 :=
  have h : (Daemon.ofAnswers idleAnswers).answers "f01234" EmptyTSK idleAnswers :=
    answers_ofAnswers _ _ _ (by decide)
  ⟨h, rfl, rfl, C5_zero_total_not_eligible _ _ _ _ _ _ _ h rfl rfl⟩

/-! ## a cycle that returns a value -/

theorem sumControlBalances_ok_inv (d : Daemon) (l : List Address) (cbsum v : ℤ)
    (h : (sumControlBalances d l cbsum).result = .ok v) :
    ∀ ca ∈ l, ∃ b, d.WalletBalance ca = .ok b := by
  induction l generalizing cbsum with
  | nil => intro ca hca; cases hca
  | cons c rest ih =>
    unfold sumControlBalances at h
    cases hc : d.WalletBalance c with
    | error e => simp [hc, call, Run.bind] at h
    | ok b =>
      rw [call_of_ok _ hc, Run.bind_of_ok rfl] at h
      intro ca hca
      rcases List.mem_cons.mp hca with rfl | hr
      · exact ⟨b, hc⟩
      · exact ih _ h ca hr

/-- A call of `GetMinerInfo` that returns a value has had an answer to every
query, and its win-rate derivation has not panicked. -/
theorem answers_of_ok {d : Daemon} {minerAddr : Address} {minerID : String} {tpKey : TipSetKey}
    {info : MinerInfo} (h : (GetMinerInfo d minerAddr minerID tpKey).result = .ok info) :
    ∃ ans win, d.answers minerAddr tpKey ans ∧ winPerDay ans.pow = some win := by
  unfold GetMinerInfo at h
  simp only [Run.bind_def, Run.pure_def] at h
  cases h1 : d.StateGetActor minerAddr tpKey with
  | error e => simp [h1, call, Run.bind] at h
  | ok mact =>
  rw [call_of_ok _ h1, Run.bind_of_ok rfl] at h
  cases h2 : d.Load mact with
  | error e => simp [h2, call, Run.bind] at h
  | ok mas =>
  rw [call_of_ok _ h2, Run.bind_of_ok rfl] at h
  cases h3 : d.StateMinerInfo minerAddr tpKey with
  | error e => simp [h3, call, Run.bind] at h
  | ok mi =>
  rw [call_of_ok _ h3, Run.bind_of_ok rfl] at h
  cases h4 : d.StateMinerPower minerAddr tpKey with
  | error e => simp [h4, call, Run.bind] at h
  | ok pow =>
  rw [call_of_ok _ h4, Run.bind_of_ok rfl] at h
  cases h5 : d.StateMinerSectorCount minerAddr tpKey with
  | error e => simp [h5, call, Run.bind] at h
  | ok secCounts =>
  rw [call_of_ok _ h5, Run.bind_of_ok rfl] at h
  cases hw : winPerDay pow with
  | none => simp [hw, orPanic, Run.bind] at h
  | some win =>
  rw [hw] at h
  simp only [orPanic] at h
  rw [Run.bind_of_ok rfl] at h
  cases h6 : d.LockedFunds mas with
  | error e => simp [h6, call, Run.bind] at h
  | ok lockedFunds =>
  rw [call_of_ok _ h6, Run.bind_of_ok rfl] at h
  cases h7 : d.AvailableBalance mas mact.Balance with
  | error e => simp [h7, call, Run.bind] at h
  | ok availBalance =>
  rw [call_of_ok _ h7, Run.bind_of_ok rfl] at h
  cases h8 : d.WalletBalance mi.Worker with
  | error e => simp [h8, call, Run.bind] at h
  | ok wb =>
  rw [call_of_ok _ h8, Run.bind_of_ok rfl] at h
  have h9 : ∀ ca ∈ mi.ControlAddresses, ∃ b, d.WalletBalance ca = .ok b := by
    rcases hl : mi.ControlAddresses with _ | ⟨c, rest⟩
    · intro ca hca; cases hca
    · rw [hl, if_pos (by simp)] at h
      cases hs : (sumControlBalances d (c :: rest) 0).result with
      | error e => simp [bind, Run.bind, hs] at h
      | ok v => exact sumControlBalances_ok_inv d _ 0 v hs
  refine ⟨⟨mact, mas, mi, pow, secCounts, lockedFunds, availBalance, wb,
    fun ca => match d.WalletBalance ca with
      | .ok b => b
      | .error _ => 0⟩, win, ⟨h1, h2, h3, h4, h5, h6, h7, h8, ?_⟩, hw⟩
  intro ca hca
  obtain ⟨b, hb⟩ := h9 ca hca
  simp [hb]

/-! ## the tipset keys of the queries -/

theorem keyedBy_pure {α : Type} (k : TipSetKey) (a : α) : (Run.pure a).KeyedBy k := by
  intro c hc; cases hc

theorem keyedBy_orPanic {α : Type} (k : TipSetKey) (msg : String) (o : Option α) :
    (orPanic msg o).KeyedBy k := by
  cases o <;> (intro c hc; cases hc)

theorem keyedBy_call {α : Type} (k : TipSetKey) (q : Query) (r : Except String α)
    (hq : ∀ k', q.tipSetKey = some k' → k' = k) : (call q r).KeyedBy k := by
  intro c hc
  cases r <;> simp only [call, List.mem_singleton] at hc <;> subst hc <;> exact hq

theorem keyedBy_bind {α β : Type} {k : TipSetKey} {x : Run α} {f : α → Run β}
    (hx : x.KeyedBy k) (hf : ∀ a, (f a).KeyedBy k) : (Run.bind x f).KeyedBy k := by
  intro c hc
  cases hr : x.result with
  | error e =>
    rw [Run.bind_of_error hr] at hc
    exact hx c hc
  | ok a =>
    rw [Run.bind_of_ok hr] at hc
    rcases List.mem_append.mp hc with h1 | h1
    · exact hx c h1
    · exact hf a c h1

theorem keyedBy_sumControlBalances (k : TipSetKey) (d : Daemon) (l : List Address) (cbsum : ℤ) :
    (sumControlBalances d l cbsum).KeyedBy k := by
  induction l generalizing cbsum with
  | nil => exact keyedBy_pure _ _
  | cons ca rest ih =>
    unfold sumControlBalances
    exact keyedBy_bind (keyedBy_call _ _ _ (by simp [Query.tipSetKey])) (fun b => ih _)

/-- Whatever the node answers, no query of `GetMinerInfo` carries a tipset key
other than `tpKey`. -/
theorem keyedBy_GetMinerInfo (d : Daemon) (minerAddr : Address) (minerID : String)
    (tpKey : TipSetKey) : (GetMinerInfo d minerAddr minerID tpKey).KeyedBy tpKey := by
  unfold GetMinerInfo
  simp only [Run.bind_def, Run.pure_def]
  refine keyedBy_bind (keyedBy_call _ _ _ (by simp [Query.tipSetKey])) (fun mact => ?_)
  refine keyedBy_bind (keyedBy_call _ _ _ (by simp [Query.tipSetKey])) (fun mas => ?_)
  refine keyedBy_bind (keyedBy_call _ _ _ (by simp [Query.tipSetKey])) (fun mi => ?_)
  refine keyedBy_bind (keyedBy_call _ _ _ (by simp [Query.tipSetKey])) (fun pow => ?_)
  refine keyedBy_bind (keyedBy_call _ _ _ (by simp [Query.tipSetKey])) (fun secCounts => ?_)
  refine keyedBy_bind (keyedBy_orPanic _ _ _) (fun win => ?_)
  refine keyedBy_bind (keyedBy_call _ _ _ (by simp [Query.tipSetKey])) (fun lockedFunds => ?_)
  refine keyedBy_bind (keyedBy_call _ _ _ (by simp [Query.tipSetKey])) (fun availBalance => ?_)
  refine keyedBy_bind (keyedBy_call _ _ _ (by simp [Query.tipSetKey])) (fun wb => ?_)
  refine keyedBy_bind ?_ (fun cb => keyedBy_pure _ _)
  split_ifs
  · exact keyedBy_bind (keyedBy_sumControlBalances _ _ _ _) (fun cbsum => keyedBy_pure _ _)
  · exact keyedBy_pure _ _

/-- C6, amended. In every cycle, returning or not, no query of `GetMinerInfo`
carries a tipset key other than `tpKey`, and every `WalletBalance` query
carries no tipset key at all. In a cycle that returns a value the queries are,
in order: `StateGetActor`, `StateMinerInfo`, `StateMinerPower` and
`StateMinerSectorCount` at `tpKey`; `miner.Load` of the actor returned for
`tpKey`, then `LockedFunds` and `AvailableBalance` on the loaded state; and
`WalletBalance` of the worker and of each control address. Every field of the
returned `MinerInfo` is accounted for: the four powers, the win rate, the three
sector counts, the miner and available balances and the three locked-funds
balances (pledged, pre-commit, vesting) are computed from the answers for
`tpKey`; `WorkerBalance` and `ControlBalance` are computed from the
`WalletBalance` answers. -/
theorem C6_queries_and_keys (d : Daemon) (minerAddr : Address) (minerID : String)
    (tpKey : TipSetKey) :
    (∀ c ∈ (GetMinerInfo d minerAddr minerID tpKey).trace, ∀ k',
        c.query.tipSetKey = some k' → k' = tpKey) ∧
      (∀ c ∈ (GetMinerInfo d minerAddr minerID tpKey).trace,
        c.query.isWalletBalance = true → c.query.tipSetKey = none) ∧
      ∀ info, (GetMinerInfo d minerAddr minerID tpKey).result = .ok info →
        ∃ ans, d.answers minerAddr tpKey ans ∧
          (GetMinerInfo d minerAddr minerID tpKey).trace.map Call.query =
            [.StateGetActor minerAddr tpKey, .Load ans.mact, .StateMinerInfo minerAddr tpKey,
              .StateMinerPower minerAddr tpKey, .StateMinerSectorCount minerAddr tpKey,
              .LockedFunds ans.mas, .AvailableBalance ans.mas ans.mact.Balance,
              .WalletBalance ans.mi.Worker] ++
              ans.mi.ControlAddresses.map Query.WalletBalance ∧
          info.MinerID = minerID ∧
          info.TotalRawBytePower = ConvertPower ans.pow.TotalPower.RawBytePower ∧
          info.TotalQualityPower = ConvertPower ans.pow.TotalPower.QualityAdjPower ∧
          info.MinerRawBytePower = ConvertPower ans.pow.MinerPower.RawBytePower ∧
          info.MinerQualityPower = ConvertPower ans.pow.MinerPower.QualityAdjPower ∧
          winPerDay ans.pow = some info.WinPerDay ∧
          info.SectorsCommitted = F64.ofInt ans.secCounts.Live ∧
          info.SectorsActive = F64.ofInt ans.secCounts.Active ∧
          info.SectorsFaulty = F64.ofInt ans.secCounts.Faulty ∧
          info.MinerBalance = ConvertBalance ans.mact.Balance ∧
          info.AvailableBalance = ConvertBalance ans.availBalance ∧
          info.PledgedBalance = ConvertPower ans.lockedFunds.InitialPledgeRequirement ∧
          info.PreCommitBalance = ConvertBalance ans.lockedFunds.PreCommitDeposits ∧
          info.VestingBalance = ConvertBalance ans.lockedFunds.VestingFunds ∧
          info.WorkerBalance = ConvertBalance ans.wb ∧
          info.ControlBalance = ConvertBalance (ans.mi.ControlAddresses.map ans.balance).sum := by
  refine ⟨keyedBy_GetMinerInfo d minerAddr minerID tpKey, ?_, ?_⟩
  · intro c _ hc
    cases c with
    | mk q ok => cases q <;> simp_all [Query.isWalletBalance, Query.tipSetKey]
  · intro info h
    obtain ⟨ans, win, ha, hw⟩ := answers_of_ok h
    have hg := GetMinerInfo_of_answers minerID ha hw
    have hi := h
    rw [hg] at hi
    have hi' := Except.ok.inj hi
    subst hi'
    refine ⟨ans, ha, ?_, rfl, rfl, rfl, rfl, rfl, hw, rfl, rfl, rfl, rfl, rfl, rfl, rfl, rfl,
      rfl, rfl⟩
    rw [hg]; simp [Function.comp_def]

/-! ## sample cycles -/

theorem ConvertBalance_fil (n : ℤ) (h0 : n ≠ 0) (hn : |n| < 2 ^ 53) :
    ConvertBalance (n * 1000000000000000000) = .fin n := by
  have hq : (((n * 1000000000000000000 : ℤ) : ℚ) / (FilecoinPrecision : ℚ)) = (n : ℚ) := by
    simp [FilecoinPrecision]
  have h1 : (n : ℚ) ≠ 0 := by exact_mod_cast h0
  unfold ConvertBalance
  rw [hq, if_neg h1, ofRat_intCast n hn]

theorem sample_winPerDay_some (ans : Answers) (h : ans.pow = sampleAnswers.pow) :
    ∃ w, winPerDay ans.pow = some (.fin w) := by
  obtain ⟨w, hw, -⟩ := @winPerDay_bounds sampleAnswers.pow rfl (by decide)
  exact ⟨w, by rw [h, hw]⟩

theorem answers_forkedOld :
    forkedDaemon.answers "f01234" ["bafyold"] forkedOldAnswers :=
  ⟨by simp [forkedDaemon, forkedOldAnswers], rfl, rfl, rfl, rfl, rfl, rfl, rfl, fun _ _ => rfl⟩

theorem answers_forkedHead :
    forkedDaemon.answers "f01234" EmptyTSK forkedHeadAnswers :=
  ⟨by simp [forkedDaemon, forkedHeadAnswers, EmptyTSK, sampleAnswers, Daemon.ofAnswers],
    rfl, rfl, rfl, rfl, rfl, rfl, rfl, fun _ _ => rfl⟩

theorem C6_witness :
    (∃ info, (GetMinerInfo forkedDaemon "f01234" "f01234" ["bafyold"]).result = .ok info) ∧
      (∀ c ∈ (GetMinerInfo forkedDaemon "f01234" "f01234" ["bafyold"]).trace, ∀ k',
        c.query.tipSetKey = some k' → k' = ["bafyold"]) ∧
      (∀ c ∈ (GetMinerInfo forkedDaemon "f01234" "f01234" ["bafyold"]).trace,
        c.query.isWalletBalance = true → c.query.tipSetKey = none) ∧
      ∀ info, (GetMinerInfo forkedDaemon "f01234" "f01234" ["bafyold"]).result = .ok info →
        ∃ ans, forkedDaemon.answers "f01234" ["bafyold"] ans ∧
          (GetMinerInfo forkedDaemon "f01234" "f01234" ["bafyold"]).trace.map Call.query =
            [.StateGetActor "f01234" ["bafyold"], .Load ans.mact,
              .StateMinerInfo "f01234" ["bafyold"], .StateMinerPower "f01234" ["bafyold"],
              .StateMinerSectorCount "f01234" ["bafyold"], .LockedFunds ans.mas,
              .AvailableBalance ans.mas ans.mact.Balance, .WalletBalance ans.mi.Worker] ++
              ans.mi.ControlAddresses.map Query.WalletBalance ∧
          info.MinerID = "f01234" ∧
          info.TotalRawBytePower = ConvertPower ans.pow.TotalPower.RawBytePower ∧
          info.TotalQualityPower = ConvertPower ans.pow.TotalPower.QualityAdjPower ∧
          info.MinerRawBytePower = ConvertPower ans.pow.MinerPower.RawBytePower ∧
          info.MinerQualityPower = ConvertPower ans.pow.MinerPower.QualityAdjPower ∧
          winPerDay ans.pow = some info.WinPerDay ∧
          info.SectorsCommitted = F64.ofInt ans.secCounts.Live ∧
          info.SectorsActive = F64.ofInt ans.secCounts.Active ∧
          info.SectorsFaulty = F64.ofInt ans.secCounts.Faulty ∧
          info.MinerBalance = ConvertBalance ans.mact.Balance ∧
          info.AvailableBalance = ConvertBalance ans.availBalance ∧
          info.PledgedBalance = ConvertPower ans.lockedFunds.InitialPledgeRequirement ∧
          info.PreCommitBalance = ConvertBalance ans.lockedFunds.PreCommitDeposits ∧
          info.VestingBalance = ConvertBalance ans.lockedFunds.VestingFunds ∧
          info.WorkerBalance = ConvertBalance ans.wb ∧
          info.ControlBalance = ConvertBalance (ans.mi.ControlAddresses.map ans.balance).sum := by
  obtain ⟨w, hw⟩ := sample_winPerDay_some forkedOldAnswers rfl
  obtain ⟨info, hi, -⟩ := result_of_answers "f01234" answers_forkedOld hw
  exact ⟨⟨info, hi⟩, C6_queries_and_keys forkedDaemon "f01234" "f01234" ["bafyold"]⟩

/-- C6, refuted as stated: the cycle at the tipset `["bafyold"]` issues the
query `WalletBalance("f3worker")`, which carries no tipset key; the miner
balance follows the tipset (1 FIL at `["bafyold"]`, 5 FIL at the head), the
worker and control balances are the same 7 FIL at both. -/
theorem C6_counterexample :
    (⟨.WalletBalance "f3worker", true⟩ : Call) ∈
        (GetMinerInfo forkedDaemon "f01234" "f01234" ["bafyold"]).trace ∧
      (Query.WalletBalance "f3worker").tipSetKey ≠ some ["bafyold"] ∧
      ∃ old head,
        (GetMinerInfo forkedDaemon "f01234" "f01234" ["bafyold"]).result = .ok old ∧
        (GetMinerInfo forkedDaemon "f01234" "f01234" EmptyTSK).result = .ok head ∧
        old.MinerBalance = .fin 1 ∧ head.MinerBalance = .fin 5 ∧
        old.WorkerBalance = .fin 7 ∧ head.WorkerBalance = .fin 7 ∧
        old.ControlBalance = .fin 7 ∧ head.ControlBalance = .fin 7 := by
  obtain ⟨w, hw⟩ := sample_winPerDay_some forkedOldAnswers rfl
  obtain ⟨w', hw'⟩ := sample_winPerDay_some forkedHeadAnswers rfl
  have h1 := GetMinerInfo_of_answers "f01234" answers_forkedOld hw
  have h2 := GetMinerInfo_of_answers "f01234" answers_forkedHead hw'
  have e1 : ConvertBalance 1000000000000000000 = .fin 1 := by
    simpa using ConvertBalance_fil 1 (by norm_num) (by norm_num)
  have e5 : ConvertBalance 5000000000000000000 = .fin 5 := by
    simpa using ConvertBalance_fil 5 (by norm_num) (by norm_num)
  have e7 : ConvertBalance 7000000000000000000 = .fin 7 := by
    simpa using ConvertBalance_fil 7 (by norm_num) (by norm_num)
  refine ⟨?_, by simp [Query.tipSetKey], _, _, congrArg Run.result h1, congrArg Run.result h2,
    e1, e5, e7, e7, ?_, ?_⟩
  · rw [h1]; simp [forkedOldAnswers, sampleAnswers]
  · simpa [forkedOldAnswers, sampleAnswers] using e7
  · simpa [forkedHeadAnswers, sampleAnswers] using e7

/-- C9. In every call of `GetMinerInfo` that returns a value, `ControlBalance`
is `ConvertBalance` of the sum of the wallet balances of the declared control
addresses, and the `WalletBalance` queries of the cycle are one for the worker
followed by one per declared control address, in order. With no control address
declared, `ControlBalance` is exactly 0 and the worker query is the only
`WalletBalance` query. -/
theorem C9_control_balance (d : Daemon) (minerAddr : Address) (minerID : String)
    (tpKey : TipSetKey) (info : MinerInfo)
    (h : (GetMinerInfo d minerAddr minerID tpKey).result = .ok info) :
    ∃ ans, d.answers minerAddr tpKey ans ∧
      info.ControlBalance = ConvertBalance (ans.mi.ControlAddresses.map ans.balance).sum ∧
      ((GetMinerInfo d minerAddr minerID tpKey).trace.map Call.query).filter
          Query.isWalletBalance =
        .WalletBalance ans.mi.Worker :: ans.mi.ControlAddresses.map Query.WalletBalance ∧
      (ans.mi.ControlAddresses = [] → info.ControlBalance = .fin 0 ∧
        ((GetMinerInfo d minerAddr minerID tpKey).trace.map Call.query).filter
          Query.isWalletBalance = [.WalletBalance ans.mi.Worker]) := by
  obtain ⟨ans, win, ha, hw⟩ := answers_of_ok h
  have hg := GetMinerInfo_of_answers minerID ha hw
  have hi := h
  rw [hg] at hi
  have hi' := Except.ok.inj hi
  subst hi'
  have hf : ((GetMinerInfo d minerAddr minerID tpKey).trace.map Call.query).filter
      Query.isWalletBalance =
        .WalletBalance ans.mi.Worker :: ans.mi.ControlAddresses.map Query.WalletBalance := by
    rw [hg]
    simp only [List.map_append, List.map_cons, List.map_nil, List.map_map, Function.comp_def,
      List.filter_append, List.filter_cons, Query.isWalletBalance, List.filter_nil]
    simp [List.filter_eq_self, Query.isWalletBalance]
  refine ⟨ans, ha, rfl, hf, fun hnil => ⟨?_, ?_⟩⟩
  · simp [hnil, ConvertBalance_zero]
  · rw [hf, hnil]; rfl

theorem C9_witness :
    ∃ info, (GetMinerInfo (Daemon.ofAnswers soloAnswers) "f01234" "f01234" EmptyTSK).result
        = .ok info ∧
      ∃ ans, (Daemon.ofAnswers soloAnswers).answers "f01234" EmptyTSK ans ∧
        info.ControlBalance = ConvertBalance (ans.mi.ControlAddresses.map ans.balance).sum ∧
        ((GetMinerInfo (Daemon.ofAnswers soloAnswers) "f01234" "f01234" EmptyTSK).trace.map
            Call.query).filter Query.isWalletBalance =
          .WalletBalance ans.mi.Worker :: ans.mi.ControlAddresses.map Query.WalletBalance ∧
        (ans.mi.ControlAddresses = [] → info.ControlBalance = .fin 0 ∧
          ((GetMinerInfo (Daemon.ofAnswers soloAnswers) "f01234" "f01234" EmptyTSK).trace.map
            Call.query).filter Query.isWalletBalance = [.WalletBalance ans.mi.Worker]) := by
  have ha : (Daemon.ofAnswers soloAnswers).answers "f01234" EmptyTSK soloAnswers :=
    answers_ofAnswers _ _ _ (by decide)
  obtain ⟨w, hw⟩ := sample_winPerDay_some soloAnswers rfl
  obtain ⟨info, hi, -⟩ := result_of_answers "f01234" ha hw
  exact ⟨info, hi, C9_control_balance _ _ _ _ info hi⟩

/-! ## the balance fields -/

/-- The balance fields of a returned `MinerInfo`: five are `ConvertBalance` of
their source amount, `PledgedBalance` is `ConvertPower` of the initial pledge
requirement (line 294). -/
theorem balances_of_ok {d : Daemon} {minerAddr : Address} {minerID : String} {tpKey : TipSetKey}
    {info : MinerInfo} (h : (GetMinerInfo d minerAddr minerID tpKey).result = .ok info) :
    ∃ ans, d.answers minerAddr tpKey ans ∧
      info.MinerBalance = ConvertBalance ans.mact.Balance ∧
      info.AvailableBalance = ConvertBalance ans.availBalance ∧
      info.PreCommitBalance = ConvertBalance ans.lockedFunds.PreCommitDeposits ∧
      info.VestingBalance = ConvertBalance ans.lockedFunds.VestingFunds ∧
      info.WorkerBalance = ConvertBalance ans.wb ∧
      info.PledgedBalance = ConvertPower ans.lockedFunds.InitialPledgeRequirement := by
  obtain ⟨ans, win, ha, hw⟩ := answers_of_ok h
  have hi := h
  rw [GetMinerInfo_of_answers minerID ha hw] at hi
  have hi' := Except.ok.inj hi
  subst hi'
  exact ⟨ans, ha, rfl, rfl, rfl, rfl, rfl, rfl⟩

theorem ConvertPower_fil : ConvertPower 1000000000000000000 = .fin 1000000000000000000 := by
  obtain ⟨r, hr, h1, h2⟩ := ofRat_of_mem_Icc (1000000000000000000 : ℚ) 1000000000000000000
    1000000000000000000 (by norm_num)
    (roundToGrid_of_eq 3814697265625 18 (by norm_num) (by norm_num) (by norm_num))
    (roundToGrid_of_eq 3814697265625 18 (by norm_num) (by norm_num) (by norm_num))
    (lt_overflow_of_le (by norm_num)) le_rfl le_rfl
  have : r = 1000000000000000000 := le_antisymm h2 h1
  unfold ConvertPower
  push_cast
  rw [hr, this]

/-- C8, the code at the failing input: with an initial pledge requirement of
`10^18` attoFIL (1 FIL) the cycle returns `PledgedBalance = 10^18`, whereas the
balance scaling of that amount is `1.0`; the vesting balance of `2 * 10^18`
attoFIL of the same answer is scaled to `2.0`. -/
theorem C8_pledged_balance_not_scaled :
    ∃ info, (GetMinerInfo (Daemon.ofAnswers sampleAnswers) "f01234" "f01234" EmptyTSK).result
        = .ok info ∧
      sampleAnswers.lockedFunds.InitialPledgeRequirement = 1000000000000000000 ∧
      info.PledgedBalance = .fin 1000000000000000000 ∧
      ConvertBalance sampleAnswers.lockedFunds.InitialPledgeRequirement = .fin 1 ∧
      info.PledgedBalance ≠ ConvertBalance sampleAnswers.lockedFunds.InitialPledgeRequirement ∧
      info.VestingBalance = .fin 2 := by
  have ha : (Daemon.ofAnswers sampleAnswers).answers "f01234" EmptyTSK sampleAnswers :=
    answers_ofAnswers _ _ _ (by decide)
  obtain ⟨w, hw⟩ := sample_winPerDay_some sampleAnswers rfl
  have hg := GetMinerInfo_of_answers "f01234" ha hw
  have e1 : ConvertBalance 1000000000000000000 = .fin 1 := by
    simpa using ConvertBalance_fil 1 (by norm_num) (by norm_num)
  have e2 : ConvertBalance 2000000000000000000 = .fin 2 := by
    simpa using ConvertBalance_fil 2 (by norm_num) (by norm_num)
  refine ⟨_, congrArg Run.result hg, rfl, ConvertPower_fil, e1, ?_, e2⟩
  show ConvertPower 1000000000000000000 ≠ ConvertBalance 1000000000000000000
  rw [ConvertPower_fil, e1]
  intro hc
  have := F64.fin.inj hc
  norm_num at this

/-! ## reads before the first successful cycle -/

theorem runCycles_of_failed (jsonMarshal : MinerInfo → Except String (List UInt8))
    (minerAddr : Address) (minerID : String) (tpKey : TipSetKey) (ds : List Daemon) (s : Store)
    (h : ∀ d ∈ ds, ∃ c ∈ (GetMinerInfo d minerAddr minerID tpKey).trace, c.ok = false) :
    runCycles jsonMarshal minerAddr minerID tpKey ds s = some s := by
  induction ds with
  | nil => rfl
  | cons d rest ih =>
    obtain ⟨e, he⟩ := (aborts_GetMinerInfo d minerAddr minerID tpKey).mp
      (h d (List.mem_cons_self _ _))
    unfold runCycles
    rw [loopBody_of_err he s]
    exact ih (fun d' hd' => h d' (List.mem_cons_of_mem _ hd'))

/-- C7, refuted as stated: read in the initial store, the `/json` handler
answers with status 200 and an empty body, and the `/metrics` endpoint exposes
all fifteen gauges, each with the value 0. -/
theorem C7_counterexample :
    (handler Store.init).status = 200 ∧ (handler Store.init).body = [] ∧
      (metrics Store.init).length = 15 ∧
      ("total_raw_byte_power", F64.fin 0) ∈ metrics Store.init ∧
      ∀ x ∈ metrics Store.init, x.2 = F64.fin 0 := by
  refine ⟨rfl, rfl, rfl, ?_, ?_⟩
  · simp [metrics, Store.init]
  · intro x hx
    simp only [metrics, Store.init, List.mem_cons, List.mem_singleton, List.not_mem_nil,
      or_false] at hx
    rcases hx with h | h | h | h | h | h | h | h | h | h | h | h | h | h | h <;> rw [h]

/-- C7, amended. Before any refresh cycle has succeeded, that is in the initial
store after any number of cycles in each of which a query failed, the store is
still the initial one; there the `/json` handler answers with status 200,
content type `application/json` and an empty body, and the `/metrics` endpoint
exposes the fifteen registered gauges, each with its initial value 0. -/
theorem C7_reads_before_first_success (jsonMarshal : MinerInfo → Except String (List UInt8))
    (minerAddr : Address) (minerID : String) (tpKey : TipSetKey) (ds : List Daemon)
    (h : ∀ d ∈ ds, ∃ c ∈ (GetMinerInfo d minerAddr minerID tpKey).trace, c.ok = false) :
    ∃ s, runCycles jsonMarshal minerAddr minerID tpKey ds Store.init = some s ∧
      handler s = ⟨200, "application/json", []⟩ ∧
      (metrics s).map Prod.fst =
        ["total_raw_byte_power", "total_quality_power", "miner_raw_byte_power",
          "miner_quality_power", "expect_win_per_day", "sectors_committed", "sectors_faulty",
          "sectors_active", "worker_balance", "miner_balance", "control_balance",
          "available_balance", "pledged_balance", "vesting_balance", "precommit_balance"] ∧
      ∀ x ∈ metrics s, x.2 = F64.fin 0 := by
  refine ⟨Store.init, runCycles_of_failed jsonMarshal minerAddr minerID tpKey ds _ h, rfl, rfl, ?_⟩
  intro x hx
  simp only [metrics, Store.init, List.mem_cons, List.mem_singleton, List.not_mem_nil,
    or_false] at hx
  rcases hx with h | h | h | h | h | h | h | h | h | h | h | h | h | h | h <;> rw [h]

theorem C7_witness :
    (∀ d ∈ [Daemon.unreachable, Daemon.unreachable],
        ∃ c ∈ (GetMinerInfo d "f01234" "f01234" EmptyTSK).trace, c.ok = false) ∧
      ∃ s, runCycles (fun _ => .ok [123, 125]) "f01234" "f01234" EmptyTSK
          [Daemon.unreachable, Daemon.unreachable] Store.init = some s ∧
        handler s = ⟨200, "application/json", []⟩ ∧
        (metrics s).map Prod.fst =
          ["total_raw_byte_power", "total_quality_power", "miner_raw_byte_power",
            "miner_quality_power", "expect_win_per_day", "sectors_committed", "sectors_faulty",
            "sectors_active", "worker_balance", "miner_balance", "control_balance",
            "available_balance", "pledged_balance", "vesting_balance", "precommit_balance"] ∧
        ∀ x ∈ metrics s, x.2 = F64.fin 0 :=
  have h : ∀ d ∈ [Daemon.unreachable, Daemon.unreachable],
      ∃ c ∈ (GetMinerInfo d "f01234" "f01234" EmptyTSK).trace, c.ok = false := by
    intro d hd
    have hd' : d = Daemon.unreachable := by simpa using hd
    subst hd'
    exact ⟨⟨.StateGetActor "f01234" EmptyTSK, false⟩, by
      simp [GetMinerInfo, bind, Run.bind, call, Daemon.unreachable], rfl⟩
  ⟨h, C7_reads_before_first_success _ _ _ _ _ h⟩

/-! ## the balance scaling -/

theorem overflow_eq_zpow : F64.overflow = (2 : ℚ) ^ (1024 : ℤ) := by
  unfold F64.overflow; exact (zpow_natCast 2 1024).symm

theorem overflow_eq_roundsToInf_add : F64.overflow = F64.roundsToInf + (2 : ℚ) ^ (970 : ℤ) := by
  unfold F64.overflow F64.roundsToInf
  rw [show (2 : ℚ) ^ (970 : ℤ) = (2 : ℚ) ^ 970 from zpow_natCast 2 970]
  ring

/-- Below the magnitude `2^1024 - 2^970` rounding stays finite. -/
theorem abs_roundToGrid_lt_overflow {q : ℚ} (h : |q| < F64.roundsToInf) :
    |roundToGrid q| < F64.overflow := by
  rcases eq_or_ne q 0 with rfl | hq
  · rw [roundToGrid_zero, abs_zero]; exact overflow_pos
  have hlt : |q| < (2 : ℚ) ^ ((1023 : ℤ) + 1) := by
    have h970 : (0 : ℚ) < (2 : ℚ) ^ (970 : ℤ) := by positivity
    have := overflow_eq_roundsToInf_add
    rw [overflow_eq_zpow] at this
    rw [show ((1023 : ℤ) + 1) = 1024 by norm_num]
    linarith
  have hb : binade q ≤ 1023 := binade_le_of_abs_lt (by norm_num) hq hlt
  have hu : ulp q / 2 ≤ (2 : ℚ) ^ (970 : ℤ) := by
    have h1 : ulp q ≤ (2 : ℚ) ^ (971 : ℤ) := by
      unfold ulp
      exact zpow_le_zpow_right₀ (by norm_num) (by omega)
    have h2 : (2 : ℚ) ^ (971 : ℤ) = 2 * (2 : ℚ) ^ (970 : ℤ) := by
      rw [show (971 : ℤ) = 1 + 970 by norm_num, zpow_add₀ (by norm_num)]; norm_num
    linarith
  have he := abs_roundToGrid_sub_le q
  have htri : |roundToGrid q| ≤ |roundToGrid q - q| + |q| := by
    have := abs_add (roundToGrid q - q) q
    simpa using this
  rw [overflow_eq_roundsToInf_add]
  linarith

theorem two_zpow_le_attoFIL : (2 : ℚ) ^ (-1022 : ℤ) ≤ 1 / 1000000000000000000 := by
  have h1 : (2 : ℚ) ^ (-1022 : ℤ) ≤ (2 : ℚ) ^ (-60 : ℤ) :=
    zpow_le_zpow_right₀ (by norm_num) (by norm_num)
  have h2 : (2 : ℚ) ^ (-60 : ℤ) ≤ 1 / 1000000000000000000 := by norm_num
  exact h1.trans h2

/-- C10, amended. For every non-zero amount `a` whose scaled magnitude
`|a| / FilecoinPrecision` is below `2^1024 - 2^970`, `ConvertBalance a` is the
finite `float64` nearest to the rational `a / FilecoinPrecision`, and
multiplying it back by the precision constant recovers `a` within the relative
rounding tolerance `2^-53`; `ConvertBalance 0` is exactly 0. -/
theorem C10_balance_round_trip (a : ℤ) (h0 : a ≠ 0)
    (hb : |(a : ℚ)| / (FilecoinPrecision : ℚ) < F64.roundsToInf) :
    ∃ f, ConvertBalance a = .fin f ∧
      ConvertBalance a = F64.ofRat ((a : ℚ) / (FilecoinPrecision : ℚ)) ∧
      |f * (FilecoinPrecision : ℚ) - a| ≤ |(a : ℚ)| * (2 : ℚ) ^ (-53 : ℤ) ∧
      ConvertBalance 0 = .fin 0 := by
  have hP : (0 : ℚ) < (FilecoinPrecision : ℚ) := by norm_num [FilecoinPrecision]
  have ha : (a : ℚ) ≠ 0 := by exact_mod_cast h0
  have hq0 : (a : ℚ) / (FilecoinPrecision : ℚ) ≠ 0 := div_ne_zero ha hP.ne'
  have habs : |(a : ℚ) / (FilecoinPrecision : ℚ)| = |(a : ℚ)| / (FilecoinPrecision : ℚ) := by
    rw [abs_div, abs_of_pos hP]
  have hnorm : (2 : ℚ) ^ (-1022 : ℤ) ≤ |(a : ℚ) / (FilecoinPrecision : ℚ)| := by
    rw [habs]
    have h1 : (1 : ℚ) ≤ |(a : ℚ)| := by
      have : (1 : ℤ) ≤ |a| := Int.one_le_abs h0
      exact_mod_cast this
    have h2 : 1 / (FilecoinPrecision : ℚ) ≤ |(a : ℚ)| / (FilecoinPrecision : ℚ) :=
      div_le_div_of_nonneg_right h1 hP.le
    have h3 : (1 : ℚ) / (FilecoinPrecision : ℚ) = 1 / 1000000000000000000 := by
      norm_num [FilecoinPrecision]
    have := two_zpow_le_attoFIL
    linarith
  have hrel := abs_roundToGrid_sub_le_rel hnorm
  have hfin := abs_roundToGrid_lt_overflow (by rw [habs]; exact hb)
  have hfin' := abs_lt.mp hfin
  have hne : roundToGrid ((a : ℚ) / (FilecoinPrecision : ℚ)) ≠ 0 := by
    intro hz
    rw [hz, zero_sub, abs_neg] at hrel
    have hpos : 0 < |(a : ℚ) / (FilecoinPrecision : ℚ)| := abs_pos.mpr hq0
    have h53 : (2 : ℚ) ^ (-53 : ℤ) < 1 := by norm_num
    nlinarith
  have hconv : ConvertBalance a = F64.ofRat ((a : ℚ) / (FilecoinPrecision : ℚ)) := by
    unfold ConvertBalance
    rw [if_neg hq0]
  refine ⟨roundToGrid ((a : ℚ) / (FilecoinPrecision : ℚ)), ?_, hconv, ?_, ConvertBalance_zero⟩
  · rw [hconv]
    exact ofRat_eq_fin hfin'.2 hfin'.1 (Or.inl hne)
  · have e : roundToGrid ((a : ℚ) / (FilecoinPrecision : ℚ)) * (FilecoinPrecision : ℚ) - a =
        (roundToGrid ((a : ℚ) / (FilecoinPrecision : ℚ)) - (a : ℚ) / (FilecoinPrecision : ℚ)) *
          (FilecoinPrecision : ℚ) := by
      field_simp
    rw [e, abs_mul, abs_of_pos hP]
    rw [habs] at hrel
    calc _ ≤ |(a : ℚ)| / (FilecoinPrecision : ℚ) * (2 : ℚ) ^ (-53 : ℤ) * (FilecoinPrecision : ℚ) :=
          mul_le_mul_of_nonneg_right hrel hP.le
      _ = |(a : ℚ)| * (2 : ℚ) ^ (-53 : ℤ) := by field_simp; ring

theorem lt_roundsToInf_of_le_zpow {x : ℚ} {k : ℤ} (hk : k ≤ 1023) (h : x ≤ (2 : ℚ) ^ k) :
    x < F64.roundsToInf := by
  have h1 : (2 : ℚ) ^ k ≤ (2 : ℚ) ^ (1023 : ℤ) := zpow_le_zpow_right₀ (by norm_num) hk
  have h2 : (2 : ℚ) ^ (970 : ℤ) < (2 : ℚ) ^ (1023 : ℤ) :=
    zpow_lt_zpow_right₀ (by norm_num) (by norm_num)
  have h3 : (2 : ℚ) ^ (1024 : ℤ) = 2 * (2 : ℚ) ^ (1023 : ℤ) := by
    rw [show (1024 : ℤ) = 1 + 1023 by norm_num, zpow_add₀ (by norm_num)]; norm_num
  have h4 := overflow_eq_roundsToInf_add
  rw [overflow_eq_zpow] at h4
  linarith

theorem C10_witness :
    (1 : ℤ) ≠ 0 ∧ |((1 : ℤ) : ℚ)| / (FilecoinPrecision : ℚ) < F64.roundsToInf ∧
      ∃ f, ConvertBalance 1 = .fin f ∧
        ConvertBalance 1 = F64.ofRat (((1 : ℤ) : ℚ) / (FilecoinPrecision : ℚ)) ∧
        |f * (FilecoinPrecision : ℚ) - ((1 : ℤ) : ℚ)| ≤ |((1 : ℤ) : ℚ)| * (2 : ℚ) ^ (-53 : ℤ) ∧
        ConvertBalance 0 = .fin 0 :=
  have hb : |((1 : ℤ) : ℚ)| / (FilecoinPrecision : ℚ) < F64.roundsToInf :=
    lt_roundsToInf_of_le_zpow (k := 0) (by norm_num) (by norm_num [FilecoinPrecision])
  ⟨one_ne_zero, hb, C10_balance_round_trip 1 one_ne_zero hb⟩

/-- C10, refuted as stated: the amount `2^1024 * 10^18` is scaled to `+Inf`,
from which no multiplication recovers the amount. -/
theorem C10_counterexample :
    (2 ^ 1024 * 1000000000000000000 : ℤ) ≠ 0 ∧
      ConvertBalance (2 ^ 1024 * 1000000000000000000) = .pinf := by
  have hq : (((2 ^ 1024 * 1000000000000000000 : ℤ) : ℚ) / (FilecoinPrecision : ℚ)) =
      (2 : ℚ) ^ (1024 : ℤ) := by
    rw [show (2 : ℚ) ^ (1024 : ℤ) = (2 : ℚ) ^ 1024 from zpow_natCast 2 1024]
    rw [Int.cast_mul, Int.cast_pow, Int.cast_ofNat, Int.cast_ofNat]
    rw [show ((FilecoinPrecision : ℤ) : ℚ) = 1000000000000000000 by norm_num [FilecoinPrecision]]
    exact mul_div_cancel_right₀ ((2 : ℚ) ^ 1024)
      (show (1000000000000000000 : ℚ) ≠ 0 by norm_num)
  refine ⟨mul_ne_zero (pow_ne_zero _ (by norm_num)) (by norm_num), ?_⟩
  unfold ConvertBalance
  rw [hq, if_neg (by positivity)]
  unfold F64.ofRat
  rw [roundToGrid_two_zpow 1024 (by norm_num), if_pos (le_of_eq overflow_eq_zpow)]

/-! ## the win rate against the formula of the specification -/

theorem ofRat_eq_fin_of_mem_Icc (q lo hi : ℚ) (hlo : 0 < lo) (rlo : roundToGrid lo = lo)
    (rhi : roundToGrid hi = hi) (hhi : hi < F64.overflow) (h1 : lo ≤ q) (h2 : q ≤ hi) :
    F64.ofRat q = .fin (roundToGrid q) ∧ lo ≤ roundToGrid q ∧ roundToGrid q ≤ hi := by
  have hq : 0 < q := lt_of_lt_of_le hlo h1
  have h3 : lo ≤ roundToGrid q := rlo ▸ roundToGrid_mono hlo h1
  have h4 : roundToGrid q ≤ hi := rhi ▸ roundToGrid_mono hq h2
  refine ⟨ofRat_eq_fin (by linarith) ?_ (Or.inr hq.le), h3, h4⟩
  have := overflow_pos
  linarith

/-- Evaluation of a rounding: in the binade of exponent `e`, a value within
half a spacing of the multiple `n * 2^(e-52)` rounds to it. -/
theorem roundToGrid_eq_of_near {q : ℚ} (e n : ℤ) (he : -1022 ≤ e) (h1 : (2 : ℚ) ^ e ≤ |q|)
    (h2 : |q| < (2 : ℚ) ^ (e + 1)) (h3 : |q / (2 : ℚ) ^ (e - 52) - n| < 1 / 2) :
    roundToGrid q = n * (2 : ℚ) ^ (e - 52) := by
  unfold roundToGrid ulp
  rw [binade_eq_of he h1 h2, roundHalfEven_eq_of_abs_lt h3]

theorem floor_count (m t : ℤ) (ht : 0 < t) :
    ⌊((1000000 * m : ℤ) : ℚ) / (t : ℚ)⌋ = BigMul m 1000000 / t := by
  obtain ⟨k, rfl⟩ : ∃ k : ℕ, t = (k : ℤ) := ⟨t.toNat, by omega⟩
  have := Rat.floor_intCast_div_natCast (1000000 * m) k
  rw [Int.cast_natCast, this, BigMul, mul_comm]

/-- The rate of the spec scenario, step by step: `0.05` rounds to
`3602879701896397 / 2^56`, the next quotient rounds to `6 * 10^11` ns. -/
theorem winPerDay_scenario (pow : api.MinerPower) (hmin : pow.HasMinPower = true)
    (hm : pow.MinerPower.QualityAdjPower = 10) (hT : pow.TotalPower.QualityAdjPower = 1000) :
    winPerDay pow = some (.fin 144) := by
  have hcount : Int64 (BigMul (BigMul 10 1000000 / 1000) BlocksPerEpoch) = 50000 := by decide
  have he : F64.div (F64.ofInt 50000) (.fin 1000000) = .fin (3602879701896397 / 72057594037927936) := by
    unfold F64.ofInt
    rw [ofRat_intCast 50000 (by norm_num), div_fin_fin (by norm_num) (by norm_num)]
    have hr : roundToGrid (((50000 : ℤ) : ℚ) / 1000000) = 3602879701896397 / 72057594037927936 := by
      rw [roundToGrid_eq_of_near (-5) 7205759403792794 (by norm_num) (by norm_num [abs_of_pos])
        (by norm_num [abs_of_pos]) (by norm_num [abs_of_pos, abs_lt])]
      norm_num
    rw [ofRat_eq_fin (by rw [hr]; exact lt_overflow_of_le (by norm_num))
      (by rw [hr]; have := overflow_pos; linarith [show (0:ℚ) ≤ 3602879701896397 / 72057594037927936 by norm_num])
      (Or.inr (by norm_num)), hr]
  have hy : F64.div (F64.ofInt 30000000000) (.fin (3602879701896397 / 72057594037927936)) =
      .fin 600000000000 := by
    unfold F64.ofInt
    rw [ofRat_intCast 30000000000 (by norm_num), div_fin_fin (by norm_num) (by norm_num)]
    have hr : roundToGrid (((30000000000 : ℤ) : ℚ) / (3602879701896397 / 72057594037927936)) =
        600000000000 := by
      rw [roundToGrid_eq_of_near 39 4915200000000000 (by norm_num) (by norm_num [abs_of_pos])
        (by norm_num [abs_of_pos]) (by norm_num [abs_of_pos, abs_lt])]
      norm_num
    rw [ofRat_eq_fin (by rw [hr]; exact lt_overflow_of_le (by norm_num))
      (by rw [hr]; have := overflow_pos; linarith) (Or.inr (by norm_num)), hr]
  have ht : F64.toInt64 (.fin 600000000000) = 600000000000 := by
    show (if -2 ^ 63 ≤ truncRat 600000000000 ∧ truncRat 600000000000 < 2 ^ 63
      then truncRat 600000000000 else -2 ^ 63) = 600000000000
    have : truncRat 600000000000 = 600000000000 := by
      rw [truncRat_of_nonneg (by norm_num)]
      exact_mod_cast Int.floor_intCast (α := ℚ) 600000000000
    rw [this]; norm_num
  have hw : F64.div (F64.ofInt 86400000000000) (F64.ofInt 600000000000) = .fin 144 := by
    unfold F64.ofInt
    rw [ofRat_intCast 86400000000000 (by norm_num), ofRat_intCast 600000000000 (by norm_num),
      div_fin_fin (by norm_num) (by norm_num)]
    have : (((86400000000000 : ℤ) : ℚ) / ((600000000000 : ℤ) : ℚ)) = ((144 : ℤ) : ℚ) := by norm_num
    rw [this, ofRat_intCast 144 (by norm_num)]
    norm_num
  simp only [winPerDay, hmin, hm, hT, BigDiv, Bool.not_true, Bool.false_eq_true, if_false, hcount,
    he, blockDelay_ns, day_ns, show (1000 : ℤ) ≠ 0 by norm_num]
  have g0 : (F64.fin (3602879701896397 / 72057594037927936)).gt 0 = true := by
    simp [F64.gt]
  have g1 : (F64.fin (3602879701896397 / 72057594037927936)).gt 1 = false := by
    simp only [F64.gt, decide_eq_false_iff_not, not_lt]; norm_num
  rw [g0, g1]
  simp only [if_true, Bool.false_eq_true, if_false]
  rw [hy, ht, hw]

/-! ## the rounding error of the win rate -/

/-- Perturbation of the truncated quotient. -/
theorem floors_near {E re y Y : ℚ} {Wp W : ℤ} (hE : 0 < E)
    (f1 : E * (1 - 1 / 9007199254740992) ≤ re) (f1' : re ≤ E * (1 + 1 / 9007199254740992))
    (f2 : 30000000000 / re * (1 - 1 / 9007199254740992) ≤ y)
    (f2' : y ≤ 30000000000 / re * (1 + 1 / 9007199254740992))
    (f3 : (Wp : ℚ) ≤ y) (f3' : y < Wp + 1)
    (hY : Y = 30000000000 / E) (hW : (W : ℚ) ≤ Y) (hW' : Y < W + 1) :
    (Wp : ℚ) * (1 - 1 / 9007199254740992) < (W + 1) * (1 + 1 / 9007199254740992) ∧
      (W : ℚ) * (1 - 1 / 9007199254740992) < (Wp + 1) * (1 + 1 / 9007199254740992) := by
  have hre : 0 < re := lt_of_lt_of_le (by positivity) f1
  have hY0 : 0 < Y := by rw [hY]; positivity
  have hy1 : 0 < 30000000000 / re := by positivity
  have e1 : 30000000000 / re * re = 30000000000 := by field_simp
  have e2 : Y * E = 30000000000 := by rw [hY]; field_simp
  -- y1 * α ≤ Y and Y ≤ y1 * β
  have g1 : 30000000000 / re * (1 - 1 / 9007199254740992) ≤ Y := by
    have : 30000000000 / re * (E * (1 - 1 / 9007199254740992)) ≤ Y * E := by
      have := mul_le_mul_of_nonneg_left f1 hy1.le
      linarith
    have h2 : (30000000000 / re * (1 - 1 / 9007199254740992)) * E ≤ Y * E := by linarith
    exact le_of_mul_le_mul_right h2 hE
  have g2 : Y ≤ 30000000000 / re * (1 + 1 / 9007199254740992) := by
    have : Y * E ≤ 30000000000 / re * (E * (1 + 1 / 9007199254740992)) := by
      have := mul_le_mul_of_nonneg_left f1' hy1.le
      linarith
    have h2 : Y * E ≤ (30000000000 / re * (1 + 1 / 9007199254740992)) * E := by linarith
    exact le_of_mul_le_mul_right h2 hE
  constructor
  · -- Wp α ≤ y α ≤ y1 β α ≤ Y β < (W+1) β
    have s1 : y * (1 - 1 / 9007199254740992) ≤
        30000000000 / re * (1 + 1 / 9007199254740992) * (1 - 1 / 9007199254740992) :=
      mul_le_mul_of_nonneg_right f2' (by norm_num)
    have s2 : 30000000000 / re * (1 - 1 / 9007199254740992) * (1 + 1 / 9007199254740992) ≤
        Y * (1 + 1 / 9007199254740992) :=
      mul_le_mul_of_nonneg_right g1 (by norm_num)
    have s3 : (Wp : ℚ) * (1 - 1 / 9007199254740992) ≤ y * (1 - 1 / 9007199254740992) :=
      mul_le_mul_of_nonneg_right f3 (by norm_num)
    have s4 : Y * (1 + 1 / 9007199254740992) < (W + 1) * (1 + 1 / 9007199254740992) :=
      mul_lt_mul_of_pos_right hW' (by norm_num)
    linarith
  · have s1 : 30000000000 / re * (1 - 1 / 9007199254740992) * (1 + 1 / 9007199254740992) ≤
        y * (1 + 1 / 9007199254740992) :=
      mul_le_mul_of_nonneg_right f2 (by norm_num)
    have s2 : Y * (1 - 1 / 9007199254740992) ≤
        30000000000 / re * (1 + 1 / 9007199254740992) * (1 - 1 / 9007199254740992) :=
      mul_le_mul_of_nonneg_right g2 (by norm_num)
    have s3 : y * (1 + 1 / 9007199254740992) < ((Wp : ℚ) + 1) * (1 + 1 / 9007199254740992) :=
      mul_lt_mul_of_pos_right f3' (by norm_num)
    have s4 : (W : ℚ) * (1 - 1 / 9007199254740992) ≤ Y * (1 - 1 / 9007199254740992) :=
      mul_le_mul_of_nonneg_right hW (by norm_num)
    linarith

/-- From the truncated quotient to the rate. -/
theorem rate_near {Wp W : ℤ} {r5 w : ℚ} (hW : (30000000000 : ℚ) ≤ W)
    (hWp : (30000000000 : ℚ) ≤ Wp)
    (g5 : (Wp : ℚ) * (1 - 1 / 9007199254740992) < (W + 1) * (1 + 1 / 9007199254740992))
    (g6 : (W : ℚ) * (1 - 1 / 9007199254740992) < (Wp + 1) * (1 + 1 / 9007199254740992))
    (f4 : (Wp : ℚ) * (1 - 1 / 9007199254740992) ≤ r5)
    (f4' : r5 ≤ (Wp : ℚ) * (1 + 1 / 9007199254740992))
    (f5 : 86400000000000 / r5 * (1 - 1 / 9007199254740992) ≤ w)
    (f5' : w ≤ 86400000000000 / r5 * (1 + 1 / 9007199254740992)) :
    |w - 86400000000000 / (W : ℚ)| ≤ 86400000000000 / (W : ℚ) * (1 / 17179869184) := by
  have hW0 : (0 : ℚ) < W := by linarith
  have hr5 : 0 < r5 := by nlinarith
  rw [abs_le]
  constructor
  · -- R (1 - ε) ≤ z α ≤ w
    have key : 86400000000000 / (W : ℚ) * (1 - 1 / 17179869184) ≤
        86400000000000 / r5 * (1 - 1 / 9007199254740992) := by
      rw [div_mul_eq_mul_div, div_mul_eq_mul_div, div_le_div_iff₀ hW0 hr5]
      nlinarith
    linarith
  · have key : 86400000000000 / r5 * (1 + 1 / 9007199254740992) ≤
        86400000000000 / (W : ℚ) * (1 + 1 / 17179869184) := by
      rw [div_mul_eq_mul_div, div_mul_eq_mul_div, div_le_div_iff₀ hr5 hW0]
      nlinarith
    linarith

theorem roundToGrid_rel {q : ℚ} (hq : 1 / 1048576 ≤ q) :
    q * (1 - 1 / 9007199254740992) ≤ roundToGrid q ∧
      roundToGrid q ≤ q * (1 + 1 / 9007199254740992) := by
  have hq0 : 0 < q := lt_of_lt_of_le (by norm_num) hq
  have h1 : (2 : ℚ) ^ (-1022 : ℤ) ≤ |q| := by
    rw [abs_of_pos hq0]
    have h2 : (2 : ℚ) ^ (-1022 : ℤ) ≤ (2 : ℚ) ^ (-20 : ℤ) :=
      zpow_le_zpow_right₀ (by norm_num) (by norm_num)
    have h3 : (2 : ℚ) ^ (-20 : ℤ) = 1 / 1048576 := by norm_num
    exact h2.trans (h3.le.trans hq)
  have h := abs_roundToGrid_sub_le_rel h1
  rw [abs_of_pos hq0, show (2 : ℚ) ^ (-53 : ℤ) = 1 / 9007199254740992 by norm_num] at h
  have := abs_le.mp h
  constructor <;> linarith [this.1, this.2]

/-- The code's last two divisions on a per-epoch expectation of 1. -/
theorem rate_at_one :
    F64.div (F64.ofInt (wrapInt64 (Hour * 24)))
      (F64.ofInt (F64.toInt64
        (F64.div (F64.ofInt (wrapInt64 (Second * wrapInt64 BlockDelaySecs))) (.fin 1)))) =
      .fin 2880 := by
  rw [blockDelay_ns, day_ns]
  unfold F64.ofInt
  rw [ofRat_intCast 86400000000000 (by norm_num), ofRat_intCast 30000000000 (by norm_num),
    div_fin_fin (by norm_num) (by norm_num)]
  have e1 : (((30000000000 : ℤ) : ℚ) / 1) = ((30000000000 : ℤ) : ℚ) := by norm_num
  rw [e1, ofRat_intCast 30000000000 (by norm_num)]
  have ht : F64.toInt64 (.fin ((30000000000 : ℤ) : ℚ)) = 30000000000 := by
    show (if -2 ^ 63 ≤ truncRat ((30000000000 : ℤ) : ℚ) ∧ truncRat ((30000000000 : ℤ) : ℚ) < 2 ^ 63
      then truncRat ((30000000000 : ℤ) : ℚ) else -2 ^ 63) = 30000000000
    have : truncRat ((30000000000 : ℤ) : ℚ) = 30000000000 := by
      rw [truncRat_of_nonneg (by norm_num)]
      exact Int.floor_intCast 30000000000
    rw [this]; norm_num
  rw [ht, ofRat_intCast 30000000000 (by norm_num), div_fin_fin (by norm_num) (by norm_num)]
  have e2 : (((86400000000000 : ℤ) : ℚ) / ((30000000000 : ℤ) : ℚ)) = ((2880 : ℤ) : ℚ) := by
    norm_num
  rw [e2, ofRat_intCast 2880 (by norm_num)]
  norm_num

/-- For a positive `int64` count `n` of millionths the code's rate is finite
and within the relative distance `2^-34` of the exact rate
`86400 * 10^9 / trunc(30 * 10^9 / min(n / 10^6, 1))`. -/
theorem winRate_near_formula {n : ℤ} (h1 : 1 ≤ n) (h2 : n < 2 ^ 63) :
    ∃ w, (F64.div (F64.ofInt n) (.fin 1000000)).gt 0 = true ∧
      F64.div (F64.ofInt (wrapInt64 (Hour * 24)))
        (F64.ofInt (F64.toInt64
          (F64.div (F64.ofInt (wrapInt64 (Second * wrapInt64 BlockDelaySecs)))
            (if (F64.div (F64.ofInt n) (.fin 1000000)).gt 1 then .fin 1
              else F64.div (F64.ofInt n) (.fin 1000000))))) = .fin w ∧
      |w - 86400000000000 / (truncRat (30000000000 / min ((n : ℚ) / 1000000) 1) : ℚ)| ≤
        86400000000000 / (truncRat (30000000000 / min ((n : ℚ) / 1000000) 1) : ℚ) *
          (1 / 17179869184) := by
  have hn1 : (1 : ℚ) ≤ n := by exact_mod_cast h1
  have hn2 : (n : ℚ) ≤ 9223372036854775808 := by exact_mod_cast h2.le
  rcases le_or_lt (1000000 : ℤ) n with hbig | hsmall
  · -- the expectation is clamped to 1
    have hn3 : (1000000 : ℚ) ≤ n := by exact_mod_cast hbig
    obtain ⟨ha, ha1, ha2⟩ := ofRat_eq_fin_of_mem_Icc (n : ℚ) 1000000 9223372036854775808
      (by norm_num) (roundToGrid_of_eq 15625 6 (by norm_num) (by norm_num) (by norm_num))
      (roundToGrid_of_eq 1 63 (by norm_num) (by norm_num) (by norm_num))
      (lt_overflow_of_le (by norm_num)) hn3 hn2
    obtain ⟨he, he1, he2⟩ := ofRat_eq_fin_of_mem_Icc (roundToGrid (n : ℚ) / 1000000) 1
      17592186044416 (by norm_num)
      (roundToGrid_of_eq 1 0 (by norm_num) (by norm_num) (by norm_num))
      (roundToGrid_of_eq 1 44 (by norm_num) (by norm_num) (by norm_num))
      (lt_overflow_of_le (by norm_num))
      (by rw [le_div_iff₀ (by norm_num)]; linarith)
      (by rw [div_le_iff₀ (by norm_num)]; linarith)
    have hdiv : F64.div (F64.ofInt n) (.fin 1000000) =
        .fin (roundToGrid (roundToGrid (n : ℚ) / 1000000)) := by
      unfold F64.ofInt
      rw [ha, div_fin_fin (by linarith) (by norm_num), he]
    have hc : (if (F64.div (F64.ofInt n) (.fin 1000000)).gt 1 then F64.fin 1
        else F64.div (F64.ofInt n) (.fin 1000000)) = .fin 1 := by
      rw [hdiv]
      by_cases hgt : 1 < roundToGrid (roundToGrid (n : ℚ) / 1000000)
      · simp [F64.gt, hgt]
      · have : roundToGrid (roundToGrid (n : ℚ) / 1000000) = 1 :=
          le_antisymm (not_lt.mp hgt) he1
        simp [F64.gt, this]
    have hmin : min ((n : ℚ) / 1000000) 1 = 1 :=
      min_eq_right (by rw [le_div_iff₀ (by norm_num)]; linarith)
    have htr : truncRat (30000000000 / (1 : ℚ)) = 30000000000 := by
      rw [truncRat_of_nonneg (by norm_num)]
      have : (30000000000 / (1 : ℚ)) = ((30000000000 : ℤ) : ℚ) := by norm_num
      rw [this]
      exact Int.floor_intCast 30000000000
    refine ⟨2880, ?_, ?_, ?_⟩
    · rw [hdiv]; simp only [F64.gt, decide_eq_true_eq]; linarith
    · rw [hc, rate_at_one]
    · rw [hmin, htr]; norm_num
  · -- the expectation is below 1
    have hn3 : (n : ℚ) ≤ 999999 := by
      have : n ≤ 999999 := by omega
      exact_mod_cast this
    have ha : F64.ofInt n = .fin n :=
      ofRat_intCast n (by rw [abs_of_pos (by omega)]; omega)
    have hE0 : (0 : ℚ) < (n : ℚ) / 1000000 := by positivity
    have hE1 : (1 : ℚ) / 1048576 ≤ (n : ℚ) / 1000000 := by
      rw [le_div_iff₀ (by norm_num)]; linarith
    obtain ⟨he, he1, he2⟩ := ofRat_eq_fin_of_mem_Icc ((n : ℚ) / 1000000) (1 / 1048576) 1
      (by norm_num) (roundToGrid_of_eq 1 (-20) (by norm_num) (by norm_num) (by norm_num))
      (roundToGrid_of_eq 1 0 (by norm_num) (by norm_num) (by norm_num))
      (lt_overflow_of_le (by norm_num)) hE1
      (by rw [div_le_iff₀ (by norm_num)]; linarith)
    have hn0 : (n : ℚ) ≠ 0 := by linarith
    have hdiv : F64.div (F64.ofInt n) (.fin 1000000) =
        .fin (roundToGrid ((n : ℚ) / 1000000)) := by
      rw [ha, div_fin_fin hn0 (by norm_num), he]
    have hre0 : 0 < roundToGrid ((n : ℚ) / 1000000) := by linarith
    have hc : (if (F64.div (F64.ofInt n) (.fin 1000000)).gt 1 then F64.fin 1
        else F64.div (F64.ofInt n) (.fin 1000000)) =
        .fin (roundToGrid ((n : ℚ) / 1000000)) := by
      rw [hdiv]
      simp [F64.gt, not_lt.mpr he2]
    obtain ⟨hy, hy1, hy2⟩ := ofRat_eq_fin_of_mem_Icc
      (30000000000 / roundToGrid ((n : ℚ) / 1000000)) 30000000000 31457280000000000
      (by norm_num)
      (roundToGrid_of_eq 30000000000 0 (by norm_num) (by norm_num) (by norm_num))
      (roundToGrid_of_eq 29296875 30 (by norm_num) (by norm_num) (by norm_num))
      (lt_overflow_of_le (by norm_num))
      (by rw [le_div_iff₀ hre0]; nlinarith)
      (by rw [div_le_iff₀ hre0]; nlinarith)
    have hy0 : (0 : ℚ) ≤ roundToGrid (30000000000 / roundToGrid ((n : ℚ) / 1000000)) := by
      linarith
    have hf1 : (30000000000 : ℤ) ≤ ⌊roundToGrid (30000000000 / roundToGrid ((n : ℚ) / 1000000))⌋ :=
      Int.le_floor.mpr (by push_cast; linarith)
    have hf2 : ⌊roundToGrid (30000000000 / roundToGrid ((n : ℚ) / 1000000))⌋ ≤
        (31457280000000000 : ℤ) := by
      have h3 := Int.floor_le (roundToGrid (30000000000 / roundToGrid ((n : ℚ) / 1000000)))
      have h4 : ((⌊roundToGrid (30000000000 / roundToGrid ((n : ℚ) / 1000000))⌋ : ℤ) : ℚ) ≤
          ((31457280000000000 : ℤ) : ℚ) := by push_cast; linarith
      exact_mod_cast h4
    have ht : F64.toInt64 (.fin (roundToGrid (30000000000 / roundToGrid ((n : ℚ) / 1000000)))) =
        ⌊roundToGrid (30000000000 / roundToGrid ((n : ℚ) / 1000000))⌋ := by
      show (if -2 ^ 63 ≤ truncRat _ ∧ truncRat _ < 2 ^ 63 then truncRat _ else -2 ^ 63) = _
      rw [truncRat_of_nonneg hy0, if_pos ⟨by omega, by omega⟩]
    have hWp : (30000000000 : ℚ) ≤
        ((⌊roundToGrid (30000000000 / roundToGrid ((n : ℚ) / 1000000))⌋ : ℤ) : ℚ) := by
      exact_mod_cast hf1
    obtain ⟨hr, hr1, hr2⟩ := ofRat_eq_fin_of_mem_Icc
      ((⌊roundToGrid (30000000000 / roundToGrid ((n : ℚ) / 1000000))⌋ : ℤ) : ℚ)
      30000000000 31457280000000000 (by norm_num)
      (roundToGrid_of_eq 30000000000 0 (by norm_num) (by norm_num) (by norm_num))
      (roundToGrid_of_eq 29296875 30 (by norm_num) (by norm_num) (by norm_num))
      (lt_overflow_of_le (by norm_num)) hWp (by exact_mod_cast hf2)
    have hr0 : (0 : ℚ) <
        roundToGrid ((⌊roundToGrid (30000000000 / roundToGrid ((n : ℚ) / 1000000))⌋ : ℤ) : ℚ) := by
      linarith
    have hz1 : (1 : ℚ) / 512 ≤ 86400000000000 /
        roundToGrid ((⌊roundToGrid (30000000000 / roundToGrid ((n : ℚ) / 1000000))⌋ : ℤ) : ℚ) := by
      rw [le_div_iff₀ hr0]; linarith
    obtain ⟨hw, -, -⟩ := ofRat_eq_fin_of_mem_Icc
      (86400000000000 /
        roundToGrid ((⌊roundToGrid (30000000000 / roundToGrid ((n : ℚ) / 1000000))⌋ : ℤ) : ℚ))
      (1 / 512) 2880 (by norm_num)
      (roundToGrid_of_eq 1 (-9) (by norm_num) (by norm_num) (by norm_num))
      (roundToGrid_of_eq 2880 0 (by norm_num) (by norm_num) (by norm_num))
      (lt_overflow_of_le (by norm_num)) hz1
      (by rw [div_le_iff₀ hr0]; linarith)
    refine ⟨roundToGrid (86400000000000 /
      roundToGrid ((⌊roundToGrid (30000000000 / roundToGrid ((n : ℚ) / 1000000))⌋ : ℤ) : ℚ)),
      ?_, ?_, ?_⟩
    · rw [hdiv]; simp only [F64.gt, decide_eq_true_eq]; exact hre0
    · rw [hc, blockDelay_ns, day_ns]
      unfold F64.ofInt
      rw [ofRat_intCast 86400000000000 (by norm_num), ofRat_intCast 30000000000 (by norm_num)]
      push_cast
      rw [div_fin_fin (by norm_num) hre0.ne', hy, ht, hr, div_fin_fin (by norm_num) hr0.ne', hw]
    · have hmin : min ((n : ℚ) / 1000000) 1 = (n : ℚ) / 1000000 :=
        min_eq_left (by rw [div_le_iff₀ (by norm_num)]; linarith)
      have hY0 : (0 : ℚ) ≤ 30000000000 / ((n : ℚ) / 1000000) := by positivity
      rw [hmin, truncRat_of_nonneg hY0]
      have hY1 : (30000000000 : ℚ) ≤ 30000000000 / ((n : ℚ) / 1000000) := by
        rw [le_div_iff₀ hE0]
        have : (n : ℚ) / 1000000 ≤ 1 := by rw [div_le_iff₀ (by norm_num)]; linarith
        nlinarith
      have hW : (30000000000 : ℚ) ≤ ((⌊30000000000 / ((n : ℚ) / 1000000)⌋ : ℤ) : ℚ) := by
        have : (30000000000 : ℤ) ≤ ⌊30000000000 / ((n : ℚ) / 1000000)⌋ :=
          Int.le_floor.mpr (by push_cast; exact hY1)
        exact_mod_cast this
      have fE := roundToGrid_rel hE1
      have hq1 : (30000000000 : ℚ) ≤ 30000000000 / roundToGrid ((n : ℚ) / 1000000) := by
        rw [le_div_iff₀ hre0]; nlinarith
      have fy := roundToGrid_rel (q := 30000000000 / roundToGrid ((n : ℚ) / 1000000))
        (by linarith [show (1 : ℚ) / 1048576 ≤ 30000000000 by norm_num])
      have fr := roundToGrid_rel
        (q := ((⌊roundToGrid (30000000000 / roundToGrid ((n : ℚ) / 1000000))⌋ : ℤ) : ℚ))
        (by linarith [show (1 : ℚ) / 1048576 ≤ 30000000000 by norm_num])
      have fw := roundToGrid_rel (q := 86400000000000 /
        roundToGrid ((⌊roundToGrid (30000000000 / roundToGrid ((n : ℚ) / 1000000))⌋ : ℤ) : ℚ))
        (by linarith [show (1 : ℚ) / 1048576 ≤ 1 / 512 by norm_num])
      obtain ⟨g5, g6⟩ := floors_near hE0 fE.1 fE.2 fy.1 fy.2
        (Int.floor_le _) (Int.lt_floor_add_one _) rfl
        (Int.floor_le (30000000000 / ((n : ℚ) / 1000000)))
        (Int.lt_floor_add_one (30000000000 / ((n : ℚ) / 1000000)))
      exact rate_near hW hWp g5 g6 fr.1 fr.2 fw.1 fw.2

theorem specWinPerDay_eq (m t : ℤ) (ht : 0 < t) :
    specWinPerDay m t = 86400000000000 /
      (truncRat (30000000000 /
        min (((BigMul (BigMul m 1000000 / t) BlocksPerEpoch : ℤ) : ℚ) / 1000000) 1) : ℚ) := by
  unfold specWinPerDay
  rw [floor_count m t ht]
  have e1 : ((24 * Hour : ℤ) : ℚ) = 86400000000000 := by norm_num [Hour, Second]
  have e2 : ((BlockDelaySecs * Second : ℤ) : ℚ) = 30000000000 := by
    norm_num [BlockDelaySecs, Second]
  have e3 : (BlocksPerEpoch : ℚ) * ((BigMul m 1000000 / t : ℤ) : ℚ) =
      ((BigMul (BigMul m 1000000 / t) BlocksPerEpoch : ℤ) : ℚ) := by
    simp only [BigMul]; push_cast; ring
  rw [e1, e2, e3]

theorem specWinPerDay_scenario : specWinPerDay 10 1000 = 144 := by
  rw [specWinPerDay_eq 10 1000 (by norm_num)]
  have h1 : BigMul (BigMul 10 1000000 / 1000) BlocksPerEpoch = 50000 := by decide
  rw [h1]
  have h2 : (30000000000 / min (((50000 : ℤ) : ℚ) / 1000000) 1) = ((600000000000 : ℤ) : ℚ) := by
    rw [min_eq_left (by norm_num)]; norm_num
  rw [h2, truncRat_of_nonneg (by norm_num), Int.floor_intCast]
  norm_num

/-- The code's rate from the count of millionths, when the count is a positive
`int64`: the count is not wrapped, and the rate is within `2^-34` of the
formula. -/
theorem winPerDay_near_spec {pow : api.MinerPower} (hmin : pow.HasMinPower = true)
    (ht : 0 < pow.TotalPower.QualityAdjPower)
    (hpos : 0 < BlocksPerEpoch * ⌊((1000000 * pow.MinerPower.QualityAdjPower : ℤ) : ℚ) /
      (pow.TotalPower.QualityAdjPower : ℚ)⌋)
    (hfit : BlocksPerEpoch * ⌊((1000000 * pow.MinerPower.QualityAdjPower : ℤ) : ℚ) /
      (pow.TotalPower.QualityAdjPower : ℚ)⌋ < 2 ^ 63) :
    ∃ w, winPerDay pow = some (.fin w) ∧
      |w - specWinPerDay pow.MinerPower.QualityAdjPower pow.TotalPower.QualityAdjPower| ≤
        specWinPerDay pow.MinerPower.QualityAdjPower pow.TotalPower.QualityAdjPower *
          (2 : ℚ) ^ (-34 : ℤ) := by
  rw [floor_count _ _ ht] at hpos hfit
  have hn : BlocksPerEpoch * (BigMul pow.MinerPower.QualityAdjPower 1000000 /
      pow.TotalPower.QualityAdjPower) =
      BigMul (BigMul pow.MinerPower.QualityAdjPower 1000000 / pow.TotalPower.QualityAdjPower)
        BlocksPerEpoch := by
    simp only [BigMul]; ring
  rw [hn] at hpos hfit
  have hI := Int64_of_range (x := BigMul (BigMul pow.MinerPower.QualityAdjPower 1000000 /
    pow.TotalPower.QualityAdjPower) BlocksPerEpoch) (by omega) hfit
  obtain ⟨w, hg, hw, hb⟩ := winRate_near_formula (n := BigMul (BigMul
    pow.MinerPower.QualityAdjPower 1000000 / pow.TotalPower.QualityAdjPower) BlocksPerEpoch)
    (by omega) hfit
  refine ⟨w, ?_, ?_⟩
  · simp only [winPerDay, hmin, BigDiv, ht.ne', if_false, Bool.not_true, Bool.false_eq_true, hI]
    rw [if_pos hg, hw]
  · rw [specWinPerDay_eq _ _ ht, show (2 : ℚ) ^ (-34 : ℤ) = 1 / 17179869184 by norm_num]
    exact hb

/-- C4, amended. For an eligible account with quality-adjusted power `m` and
network quality-adjusted power `t > 0` such that the count
`n = BlocksPerEpoch * floor(1000000 * m / t)` is positive and fits an `int64`
(`n < 2^63`, as it does whenever `m ≤ t`), `GetMinerInfo` returns a finite
`WinPerDay` within the relative distance `2^-34` of the formula
`(24 hours in ns) / trunc((BlockDelaySecs seconds in ns) / min(e, 1))` with
`e = n / 1000000`; in the spec scenario `m = 10`, `t = 1000` both the formula
and the returned `WinPerDay` are exactly 144. -/
theorem C4_win_rate_formula (d : Daemon) (minerAddr : Address) (minerID : String)
    (tpKey : TipSetKey) (ans : Answers) (h : d.answers minerAddr tpKey ans)
    (hmin : ans.pow.HasMinPower = true) (ht : 0 < ans.pow.TotalPower.QualityAdjPower)
    (hpos : 0 < BlocksPerEpoch * ⌊((1000000 * ans.pow.MinerPower.QualityAdjPower : ℤ) : ℚ) /
      (ans.pow.TotalPower.QualityAdjPower : ℚ)⌋)
    (hfit : BlocksPerEpoch * ⌊((1000000 * ans.pow.MinerPower.QualityAdjPower : ℤ) : ℚ) /
      (ans.pow.TotalPower.QualityAdjPower : ℚ)⌋ < 2 ^ 63) :
    ∃ info w, (GetMinerInfo d minerAddr minerID tpKey).result = .ok info ∧
      info.WinPerDay = .fin w ∧
      |w - specWinPerDay ans.pow.MinerPower.QualityAdjPower ans.pow.TotalPower.QualityAdjPower| ≤
        specWinPerDay ans.pow.MinerPower.QualityAdjPower ans.pow.TotalPower.QualityAdjPower *
          (2 : ℚ) ^ (-34 : ℤ) ∧
      (ans.pow.MinerPower.QualityAdjPower = 10 → ans.pow.TotalPower.QualityAdjPower = 1000 →
        w = 144 ∧
        specWinPerDay ans.pow.MinerPower.QualityAdjPower ans.pow.TotalPower.QualityAdjPower
          = 144) := by
  obtain ⟨w, hw, hb⟩ := winPerDay_near_spec hmin ht hpos hfit
  obtain ⟨info, h1, h2⟩ := result_of_answers minerID h hw
  refine ⟨info, w, h1, h2, hb, fun hm hT => ⟨?_, ?_⟩⟩
  · have hs := winPerDay_scenario ans.pow hmin hm hT
    rw [hw] at hs
    exact F64.fin.inj (Option.some.inj hs)
  · rw [hm, hT]; exact specWinPerDay_scenario

theorem C4_witness :
    (Daemon.ofAnswers sampleAnswers).answers "f01234" EmptyTSK sampleAnswers ∧
      sampleAnswers.pow.HasMinPower = true ∧ 0 < sampleAnswers.pow.TotalPower.QualityAdjPower ∧
      0 < BlocksPerEpoch * ⌊((1000000 * sampleAnswers.pow.MinerPower.QualityAdjPower : ℤ) : ℚ) /
        (sampleAnswers.pow.TotalPower.QualityAdjPower : ℚ)⌋ ∧
      BlocksPerEpoch * ⌊((1000000 * sampleAnswers.pow.MinerPower.QualityAdjPower : ℤ) : ℚ) /
        (sampleAnswers.pow.TotalPower.QualityAdjPower : ℚ)⌋ < 2 ^ 63 ∧
      ∃ info w, (GetMinerInfo (Daemon.ofAnswers sampleAnswers) "f01234" "f01234" EmptyTSK).result
          = .ok info ∧ info.WinPerDay = .fin w ∧
        |w - specWinPerDay sampleAnswers.pow.MinerPower.QualityAdjPower
            sampleAnswers.pow.TotalPower.QualityAdjPower| ≤
          specWinPerDay sampleAnswers.pow.MinerPower.QualityAdjPower
            sampleAnswers.pow.TotalPower.QualityAdjPower * (2 : ℚ) ^ (-34 : ℤ) ∧
        (sampleAnswers.pow.MinerPower.QualityAdjPower = 10 →
          sampleAnswers.pow.TotalPower.QualityAdjPower = 1000 →
          w = 144 ∧
          specWinPerDay sampleAnswers.pow.MinerPower.QualityAdjPower
            sampleAnswers.pow.TotalPower.QualityAdjPower = 144) :=
  have h : (Daemon.ofAnswers sampleAnswers).answers "f01234" EmptyTSK sampleAnswers :=
    answers_ofAnswers _ _ _ (by decide)
  have hfl : BlocksPerEpoch *
      ⌊((1000000 * sampleAnswers.pow.MinerPower.QualityAdjPower : ℤ) : ℚ) /
        (sampleAnswers.pow.TotalPower.QualityAdjPower : ℚ)⌋ = 50000 := by
    rw [floor_count _ _ (by decide)]; decide
  have hpos : 0 < BlocksPerEpoch *
      ⌊((1000000 * sampleAnswers.pow.MinerPower.QualityAdjPower : ℤ) : ℚ) /
        (sampleAnswers.pow.TotalPower.QualityAdjPower : ℚ)⌋ := by rw [hfl]; decide
  have hfit : BlocksPerEpoch *
      ⌊((1000000 * sampleAnswers.pow.MinerPower.QualityAdjPower : ℤ) : ℚ) /
        (sampleAnswers.pow.TotalPower.QualityAdjPower : ℚ)⌋ < 2 ^ 63 := by rw [hfl]; decide
  ⟨h, rfl, by decide, hpos, hfit, C4_win_rate_formula _ _ _ _ _ h rfl (by decide) hpos hfit⟩

/-- C4, refuted as stated: for an eligible account of power 1844674407371 on a
network of power 1 the count `5 * 1844674407371 * 10^6` exceeds `2^63 - 1`,
`big.Int.Int64` wraps it to a negative number, and `GetMinerInfo` returns
`WinPerDay = 0`, where the formula (with `e > 0`) gives 2880. -/
theorem C4_counterexample :
    (Daemon.ofAnswers oversizedAnswers).answers "f01234" EmptyTSK oversizedAnswers ∧
      oversizedAnswers.pow.HasMinPower = true ∧
      oversizedAnswers.pow.MinerPower.QualityAdjPower = 1844674407371 ∧
      oversizedAnswers.pow.TotalPower.QualityAdjPower = 1 ∧
      0 < BlocksPerEpoch * ⌊((1000000 * 1844674407371 : ℤ) : ℚ) / ((1 : ℤ) : ℚ)⌋ ∧
      (∃ info, (GetMinerInfo (Daemon.ofAnswers oversizedAnswers) "f01234" "f01234"
          EmptyTSK).result = .ok info ∧ info.WinPerDay = .fin 0) ∧
      specWinPerDay 1844674407371 1 = 2880 := by
  have h : (Daemon.ofAnswers oversizedAnswers).answers "f01234" EmptyTSK oversizedAnswers :=
    answers_ofAnswers _ _ _ (by decide)
  have hw : winPerDay oversizedAnswers.pow = some (.fin 0) :=
    winPerDay_of_count_nonpos rfl (by decide) (by decide)
  refine ⟨h, rfl, rfl, rfl, ?_, result_of_answers "f01234" h hw, ?_⟩
  · rw [floor_count _ _ (by decide)]; decide
  · rw [specWinPerDay_eq _ _ (by decide)]
    have h1 : BigMul (BigMul 1844674407371 1000000 / 1) BlocksPerEpoch = 9223372036855000000 := by
      decide
    rw [h1]
    have h2 : (30000000000 / min (((9223372036855000000 : ℤ) : ℚ) / 1000000) 1) =
        ((30000000000 : ℤ) : ℚ) := by
      rw [min_eq_right (by norm_num)]; norm_num
    rw [h2, truncRat_of_nonneg (by norm_num), Int.floor_intCast]
    norm_num

end LotusExporter
